import Mathlib

/-!
# srsim: the Huohuo ultimate and the light-cone stat generator

A shallow embedding of

* `internal/character/huohuo/huohuo.go` (registration, `NewInstance`),
* `internal/character/huohuo/ult.go` (`UltBuff`, `Ult`, `init`, `char.Ult`),
* `scripts/weapstat/generate.go` (`ProcessLightCone`),

followed by the properties proved about them.

Conventions.  Go `float64` values are carried by a type parameter `α`; where a
statement speaks about numbers it is instantiated at `ℚ` (exact arithmetic).
A Go panic is the `none` of an `Option`.  The engine is a Go interface whose
implementation lives outside these files: `char.Ult` is written against a record
of the four interface methods it calls, with the engine state threaded explicitly.
-/

/-! ## Types of the packages `key`, `prop`, `model`, `info`, `modifier` used by the sources -/

namespace key

/-- Modelled from the spec: `key.TargetID`, the stable identity of a target (a Go
integer type declared in package `key`). -/
abbrev TargetID := Int

/-- Modelled from the spec: `key.Modifier`, the unique key of a modifier template (a Go
string type, as the constant `UltBuff` shows). -/
abbrev Modifier := String

/-- Modelled from the spec: `key.Reason`, the cause tag logged with a mutation (a Go
string type, as the constant `Ult` shows). -/
abbrev Reason := String

end key

namespace prop

/-- Modelled from the spec: `prop.Property`, the attribute keys a modifier can contribute
to.  `ATKPercent` is the only one the sources name; the others stand for the rest of
the enumeration. -/
inductive Property where
  | ATKBase
  | ATKPercent
  | DEFPercent
  | HPPercent
  | EnergyRegen
  deriving DecidableEq, Repr

end prop

namespace model

/-- Modelled from the spec: the status classification of a modifier template
(buff / debuff / neutral); `StatusType_STATUS_BUFF` is the one the source uses. -/
inductive StatusType where
  | StatusType_UNKNOWN_STATUS
  | StatusType_STATUS_BUFF
  | StatusType_STATUS_DEBUFF
  deriving DecidableEq, Repr

/-- Modelled from the spec: `model.DamageType`; the source uses `DamageType_WIND`. -/
inductive DamageType where
  | DamageType_PHYSICAL
  | DamageType_FIRE
  | DamageType_ICE
  | DamageType_THUNDER
  | DamageType_WIND
  | DamageType_QUANTUM
  | DamageType_IMAGINARY
  deriving DecidableEq, Repr

/-- Modelled from the spec: `model.Path`; the source uses `Path_ABUNDANCE`. -/
inductive Path where
  | Path_INVALID
  | Path_DESTRUCTION
  | Path_HUNT
  | Path_ERUDITION
  | Path_HARMONY
  | Path_NIHILITY
  | Path_PRESERVATION
  | Path_ABUNDANCE
  deriving DecidableEq, Repr

/-- Modelled from the spec: `model.TargetType`, the per-action targeting metadata. -/
inductive TargetType where
  | TargetType_INVALID
  | TargetType_ALLIES
  | TargetType_ENEMIES
  deriving DecidableEq, Repr

end model

namespace info

/-- Modelled from the spec: `info.PropMap`, a Go map from attribute key to numeric delta,
kept as the list of its entries. -/
abbrev PropMap (α : Type) := List (prop.Property × α)

/-- Modelled from the spec: `info.ModifyAttribute`, the request record of
`ModifyEnergyFixed`, with the four fields `char.Ult` fills in. -/
structure ModifyAttribute (α : Type) where
  Key : key.Reason
  Target : key.TargetID
  Source : key.TargetID
  Amount : α
  deriving DecidableEq, Repr

/-- Modelled from the spec: `info.Modifier`, the record handed to `AddModifier`.  `Name`,
`Source`, `TickImmediately` and `Stats` are the fields `char.Ult` sets; `Duration` is
the field a caller sets to override the registered default, and it keeps its Go zero
value `0` when the composite literal does not mention it. -/
structure Modifier (α : Type) where
  Name : key.Modifier
  Source : key.TargetID
  Duration : Int
  TickImmediately : Bool
  Stats : PropMap α
  deriving DecidableEq, Repr

/-- Modelled from the spec: `info.Character`; the only thing the sources ask of it is the
answer of its method `UltLevelIndex()`, a Go `int`. -/
structure Character where
  UltLevelIndex : Int
  deriving DecidableEq, Repr

end info

namespace engine

/-- Modelled from the spec: the methods of the interface `engine.Engine` (the Engine
Facade of the spec) that `char.Ult` calls, over an explicit engine state `σ`.
`Characters` and `MaxEnergy` are queries, `ModifyEnergyFixed` and `AddModifier` are
the two mutations; the values the Go methods return are discarded by the caller. -/
structure Engine (σ α : Type) where
  Characters : σ → List key.TargetID
  MaxEnergy : σ → key.TargetID → α
  ModifyEnergyFixed : σ → info.ModifyAttribute α → σ
  AddModifier : σ → key.TargetID → info.Modifier α → σ

end engine

/-- Go indexing `table[i]` of a slice by an `int`: a panic (`none`) when `i` is
negative or not below the length. -/
def goIndex {α : Type} (table : List α) (i : Int) : Option α :=
  if i < 0 then none else table[i.toNat]?

/-! ## Package `huohuo` -/

namespace huohuo

/-- The constant `UltBuff key.Modifier = "huohuo-ult"` of `ult.go`. -/
def UltBuff : key.Modifier := "huohuo-ult"

/-- The constant `Ult key.Reason = "huohuo-ult"` of `ult.go`. -/
def Ult : key.Reason := "huohuo-ult"

/-- The struct `char` of `huohuo.go`.  The field `engine` is a reference to the engine;
`ε` is the type of such references, and the state of the engine it points to is
passed to the methods explicitly. -/
structure char (ε : Type) where
  engine : ε
  id : key.TargetID
  info : info.Character
  DispelCount : Int
  TalentRound : Int

/-- The body of the `for _, target := range targets` loop of `char.Ult`, iterated over
the targets still to visit.  `reason` is the value of the constant `Ult`;
`ultEnergy` and `ultAttack` are the package-level tables of `data.go`, whose values
are left open here.  The caster is skipped; for any other target the energy
request is built (indexing `ultEnergy`), sent, then the modifier is built (indexing
`ultAttack`) and sent.  An index out of range panics: the method does not return and
the answer is `none`. -/
def char.UltLoop {ε σ α : Type} [Mul α] (E : engine.Engine σ α) (c : char ε)
    (reason : key.Reason) (ultEnergy ultAttack : List α) :
    List key.TargetID → σ → Option σ
  | [], s => some s
  | target :: rest, s =>
    if c.id = target then
      char.UltLoop E c reason ultEnergy ultAttack rest s
    else
      match goIndex ultEnergy c.info.UltLevelIndex with
      | none => none
      | some energy =>
        let s1 := E.ModifyEnergyFixed s
          { Key := reason
            Target := target
            Source := c.id
            Amount := E.MaxEnergy s target * energy }
        match goIndex ultAttack c.info.UltLevelIndex with
        | none => none
        | some attack =>
          let s2 := E.AddModifier s1 target
            { Name := UltBuff
              Source := c.id
              Duration := 0
              TickImmediately := false
              Stats := [(prop.Property.ATKPercent, attack)] }
          char.UltLoop E c reason ultEnergy ultAttack rest s2

/-- The method `char.Ult` with the reason constant as a parameter: `targets` is read
once from `Characters()`, then the loop runs.  The parameters `target` and `state`
of the Go method are kept; the loop variable shadows the former. -/
def char.UltWith {ε σ α ψ : Type} [Mul α] (E : engine.Engine σ α) (reason : key.Reason)
    (ultEnergy ultAttack : List α) (c : char ε) (_target : key.TargetID) (_state : ψ)
    (s : σ) : Option σ :=
  char.UltLoop E c reason ultEnergy ultAttack (E.Characters s) s

/-- The method `func (c *char) Ult(target key.TargetID, state info.ActionState)` of
`ult.go`: `char.UltWith` at the constant `Ult`. -/
def char.Ult {ε σ α ψ : Type} [Mul α] (E : engine.Engine σ α)
    (ultEnergy ultAttack : List α) (c : char ε) (target : key.TargetID) (state : ψ)
    (s : σ) : Option σ :=
  char.UltWith E huohuo.Ult ultEnergy ultAttack c target state s

/-- A facade mutation as seen from outside: which of the two mutating methods was
called, and with what arguments. -/
inductive Call (α : Type) where
  | ModifyEnergyFixed (data : info.ModifyAttribute α)
  | AddModifier (target : key.TargetID) (modifier : info.Modifier α)
  deriving DecidableEq, Repr

/-- The engine that only records: its state is the list of mutations received so far,
oldest first; `Characters()` answers `chars` and `MaxEnergy(t)` answers `maxE t`. -/
def recorder {α : Type} (chars : List key.TargetID) (maxE : key.TargetID → α) :
    engine.Engine (List (Call α)) α where
  Characters := fun _ => chars
  MaxEnergy := fun _ t => maxE t
  ModifyEnergyFixed := fun s d => s ++ [Call.ModifyEnergyFixed d]
  AddModifier := fun s t m => s ++ [Call.AddModifier t m]

/-- The two mutations `char.Ult` sends for one non-caster ally. -/
def callsFor {α : Type} [Mul α] (caster : key.TargetID) (reason : key.Reason)
    (maxE : key.TargetID → α) (energy attack : α) (t : key.TargetID) : List (Call α) :=
  [ Call.ModifyEnergyFixed
      { Key := reason, Target := t, Source := caster, Amount := maxE t * energy },
    Call.AddModifier t
      { Name := UltBuff, Source := caster, Duration := 0, TickImmediately := false,
        Stats := [(prop.Property.ATKPercent, attack)] } ]

/-- The allies an ultimate of `caster` reaches: the elements of `chars` other than the
caster, in the order of `chars`. -/
def allies (caster : key.TargetID) (chars : List key.TargetID) : List key.TargetID :=
  chars.filter (fun t => decide (t ≠ caster))

/-- The targeted id of a mutation: the `Target` field of an energy request, the first
argument of `AddModifier`. -/
def Call.target {α : Type} : Call α → key.TargetID
  | Call.ModifyEnergyFixed data => data.Target
  | Call.AddModifier target _ => target

/-- The `AddModifier` calls of a trace, as pairs (target, modifier), in order. -/
def addModifierCalls {α : Type} : List (Call α) → List (key.TargetID × info.Modifier α)
  | [] => []
  | Call.ModifyEnergyFixed _ :: rest => addModifierCalls rest
  | Call.AddModifier target modifier :: rest => (target, modifier) :: addModifierCalls rest

/-- The `ModifyEnergyFixed` requests of a trace, in order. -/
def energyRequests {α : Type} : List (Call α) → List (info.ModifyAttribute α)
  | [] => []
  | Call.ModifyEnergyFixed data :: rest => data :: energyRequests rest
  | Call.AddModifier _ _ :: rest => energyRequests rest

/-- A mutation with the reason tag blanked out: what is left of it once the `Key` of an
energy request is disregarded.  `AddModifier` calls carry no reason and are kept
whole. -/
def Call.withoutReason {α : Type} : Call α → Call α
  | Call.ModifyEnergyFixed data => Call.ModifyEnergyFixed { data with Key := "" }
  | Call.AddModifier target modifier => Call.AddModifier target modifier

end huohuo

/-! ## The registries and the modifier store, from the spec -/

namespace modifier

/-- Modelled from the spec: the stacking policies of section 4.2 (`modifier.Replace` is the
one the source names). -/
inductive StackingBehavior where
  | Replace
  | Stack
  | Extend
  | Ignore
  deriving DecidableEq, Repr

/-- Modelled from the spec: `modifier.Config`, the registered template.  `Stacking`,
`Duration` and `StatusType` are the fields the source sets; `MaxCount` and
`MaxDuration` are the "configured maximum" of the Stack and Extend policies and keep
their Go zero value when a literal leaves them out. -/
structure Config where
  Stacking : StackingBehavior
  Duration : Int
  StatusType : model.StatusType
  MaxCount : Nat
  MaxDuration : Int
  deriving DecidableEq, Repr

/-- Modelled from the spec: the Modifier Registry, the table from modifier key to
configuration, in registration order. -/
abbrev Registry := List (key.Modifier × Config)

/-- Modelled from the spec: `modifier.Register(key, config)`; registering a key that is
already present is fatal (`none`), otherwise the entry is added. -/
def Register (reg : Registry) (k : key.Modifier) (config : Config) : Option Registry :=
  if reg.any (fun entry => decide (entry.1 = k)) then none else some (reg ++ [(k, config)])

/-- Modelled from the spec: the configuration registered under a key, if any. -/
def Registry.find (reg : Registry) (k : key.Modifier) : Option Config :=
  (reg.find? (fun entry => decide (entry.1 = k))).map Prod.snd

/-- Modelled from the spec: a ModifierInstance, an active effect on a target: the key of
its configuration, its source, its owner, its remaining duration, its stack count and
its attribute deltas.  (The generation counter of the data model plays no part in
application and is left out.) -/
structure Instance where
  name : key.Modifier
  source : key.TargetID
  owner : key.TargetID
  duration : Int
  count : Nat
  stats : info.PropMap ℚ
  deriving DecidableEq, Repr

/-- Modelled from the spec: the duration an application starts with: the one the caller
set explicitly, or the registered default when the caller left it at zero. -/
def startDuration (config : Config) (m : info.Modifier ℚ) : Int :=
  if m.Duration = 0 then config.Duration else m.Duration

/-- Modelled from the spec: the fresh instance an application of `m` to `owner` creates. -/
def newInstance (config : Config) (owner : key.TargetID) (m : info.Modifier ℚ) : Instance :=
  { name := m.Name
    source := m.Source
    owner := owner
    duration := startDuration config m
    count := 1
    stats := m.Stats }

/-- Modelled from the spec: how an existing instance `old` of the same key absorbs a new
application, per stacking policy (section 4.2).
Replace: remaining duration and stat deltas are overwritten, source becomes the new
applier.  Stack: the count increments up to the configured maximum and the duration
resets to the default.  Extend: the duration grows by the new duration, capped at the
configured maximum, the count is kept.  Ignore: nothing changes. -/
def merge (config : Config) (m : info.Modifier ℚ) (old : Instance) : Instance :=
  match config.Stacking with
  | StackingBehavior.Replace =>
    { old with duration := startDuration config m, stats := m.Stats, source := m.Source }
  | StackingBehavior.Stack =>
    { old with count := min (old.count + 1) config.MaxCount, duration := config.Duration }
  | StackingBehavior.Extend =>
    { old with duration := min (old.duration + startDuration config m) config.MaxDuration }
  | StackingBehavior.Ignore => old

/-- Modelled from the spec: `Apply(instance)` on the store of one target: the first
existing instance with the same key absorbs the application; when there is none a
fresh instance is appended (application order is list order). -/
def Apply (config : Config) (owner : key.TargetID) (m : info.Modifier ℚ) :
    List Instance → List Instance
  | [] => [newInstance config owner m]
  | old :: rest =>
    if old.name = m.Name then merge config m old :: rest
    else old :: Apply config owner m rest

end modifier

namespace engine

/-- Modelled from the spec: the state behind the Engine Facade that the ultimate touches:
the sealed Modifier Registry, the characters in insertion order, the Target
Registry's current and maximum energy, and the per-target Modifier Store. -/
structure State where
  registry : modifier.Registry
  characters : List key.TargetID
  currentEnergy : key.TargetID → ℚ
  maxEnergy : key.TargetID → ℚ
  modifiers : key.TargetID → List modifier.Instance

/-- Modelled from the spec: saturation of an energy write at the bounds `[0, maxEnergy]`. -/
def saturate (maxEnergy : ℚ) (x : ℚ) : ℚ :=
  max 0 (min x maxEnergy)

/-- Modelled from the spec: `ModifyEnergyFixed`: the amount is added to the target's
current energy and the result saturates at `[0, maxEnergy]`.  The `Key` (reason) and
`Source` of the request are logged metadata and do not enter the computation. -/
def State.ModifyEnergyFixed (s : State) (data : info.ModifyAttribute ℚ) : State :=
  { s with
    currentEnergy :=
      Function.update s.currentEnergy data.Target
        (saturate (s.maxEnergy data.Target) (s.currentEnergy data.Target + data.Amount)) }

/-- Modelled from the spec: `AddModifier`: the configuration is looked up in the registry
and the modifier is applied to the target's store under its stacking policy.  A
modifier whose key was never registered is reported as a failure and changes
nothing (the result value is discarded by `char.Ult`). -/
def State.AddModifier (s : State) (target : key.TargetID) (m : info.Modifier ℚ) : State :=
  match s.registry.find m.Name with
  | none => s
  | some config =>
    { s with
      modifiers :=
        Function.update s.modifiers target
          (modifier.Apply config target m (s.modifiers target)) }

/-- Modelled from the spec: the Engine Facade as the interface `char.Ult` is written
against: `Characters()` enumerates in insertion order, `MaxEnergy` reads the stored
maximum. -/
def facade : Engine State ℚ where
  Characters := fun s => s.characters
  MaxEnergy := fun s t => s.maxEnergy t
  ModifyEnergyFixed := State.ModifyEnergyFixed
  AddModifier := State.AddModifier

/-- Modelled from the spec: the energy invariant of section 3 on a state: every target's
current energy lies in `[0, maxEnergy]`. -/
def State.EnergyInBounds (s : State) : Prop :=
  ∀ t, 0 ≤ s.currentEnergy t ∧ s.currentEnergy t ≤ s.maxEnergy t

/-- Modelled from the spec: the store invariant of section 3 on a state: at most one
instance per (configuration key, target). -/
def State.OneInstancePerKey (s : State) : Prop :=
  ∀ t, ((s.modifiers t).map (fun i => i.name)).Nodup

end engine

namespace huohuo

/-- The configuration `init` of `ult.go` registers under `UltBuff`. -/
def UltBuffConfig : modifier.Config :=
  { Stacking := modifier.StackingBehavior.Replace
    Duration := 2
    StatusType := model.StatusType.StatusType_STATUS_BUFF
    MaxCount := 0
    MaxDuration := 0 }

/-- The function `init` of `ult.go`: a single `modifier.Register(UltBuff, ...)`, acting
on the registry. -/
def init_ult (reg : modifier.Registry) : Option modifier.Registry :=
  modifier.Register reg UltBuff UltBuffConfig

end huohuo

namespace engine

/-- A concrete state of the facade: the registry after `init` of
`ult.go`, the characters 1, 2, 3, every target at 120 of 140 energy, no modifier. -/
def State.sample : State :=
  { registry := [(huohuo.UltBuff, huohuo.UltBuffConfig)]
    characters := [1, 2, 3]
    currentEnergy := fun _ => 120
    maxEnergy := fun _ => 140
    modifiers := fun _ => [] }

end engine

namespace huohuo

/-- A store holds exactly one `huohuo-ult` instance, and that instance has the given
source, remaining duration 2 and the single delta `ATKPercent -> attack`. -/
def HasUltBuff (store : List modifier.Instance) (source : key.TargetID) (attack : ℚ) : Prop :=
  ∃ inst, store.filter (fun i => decide (i.name = UltBuff)) = [inst]
    ∧ inst.source = source ∧ inst.duration = 2
    ∧ inst.stats = [(prop.Property.ATKPercent, attack)]

end huohuo

/-! ## `huohuo.go`: registration and `NewInstance` -/

namespace key

/-- Modelled from the spec: `key.Character`, the key of a character template (a Go string
type declared in package `key`). -/
abbrev Character := String

/-- Modelled from the spec: the constant `key.Huohuo`, the key under which the character
registers itself. -/
def Huohuo : Character := "huohuo"

end key

namespace character

/-- Modelled from the spec: `character.Attack`, targeting metadata of the basic attack. -/
structure Attack where
  SPAdd : Int
  TargetType : model.TargetType
  deriving DecidableEq, Repr

/-- Modelled from the spec: `character.Skill`, targeting metadata of the skill. -/
structure Skill where
  SPNeed : Int
  TargetType : model.TargetType
  deriving DecidableEq, Repr

/-- Modelled from the spec: `character.Ult`, targeting metadata of the ultimate. -/
structure Ult where
  TargetType : model.TargetType
  deriving DecidableEq, Repr

/-- Modelled from the spec: `character.Technique`, targeting metadata of the technique. -/
structure Technique where
  TargetType : model.TargetType
  IsAttack : Bool
  deriving DecidableEq, Repr

/-- Modelled from the spec: `character.SkillInfo`, the per-action targeting metadata. -/
structure SkillInfo where
  Attack : Attack
  Skill : Skill
  Ult : Ult
  Technique : Technique
  deriving DecidableEq, Repr

/-- Modelled from the spec: `character.Config`, an entry of the character-template
registry.  The fields `Create`, `Promotions` and `Traces` of the Go literal refer to
the constructor and to data tables and are not part of this record. -/
structure Config where
  Rarity : Int
  Element : model.DamageType
  Path : model.Path
  MaxEnergy : ℚ
  SkillInfo : SkillInfo
  deriving DecidableEq, Repr

/-- Modelled from the spec: the character-template registry, in registration order. -/
abbrev Registry := List (key.Character × Config)

/-- Modelled from the spec: `character.Register(key, config)`; a duplicate key is fatal
(`none`), otherwise the entry is added. -/
def Register (reg : Registry) (k : key.Character) (config : Config) : Option Registry :=
  if reg.any (fun entry => decide (entry.1 = k)) then none else some (reg ++ [(k, config)])

end character

namespace event

/-- Modelled from the spec: the event kinds of the Event Bus; `ActionStart` is the one the
source subscribes to, the others stand for the remaining lifecycle points. -/
inductive Kind where
  | ActionStart
  | ActionEnd
  | TurnStart
  | TurnEnd
  | ModifierRemoved
  deriving DecidableEq, Repr

/-- Modelled from the spec: the Event Bus: for every event kind the list of subscribed
callbacks, in registration order (which is dispatch order). -/
abbrev System (κ : Type) := Kind → List κ

/-- Modelled from the spec: `Subscribe(eventKind, callback)`: the callback is appended to
the subscriber list of that kind; the lists of the other kinds are untouched. -/
def Subscribe {κ : Type} (bus : System κ) (kind : Kind) (callback : κ) : System κ :=
  fun k => if k = kind then bus k ++ [callback] else bus k

/-- Modelled from the spec: the order in which `Publish(kind, payload)` invokes the
subscribers: registration order. -/
def dispatchOrder {κ : Type} (bus : System κ) (kind : Kind) : List κ :=
  bus kind

end event

namespace huohuo

/-- The literal `character.Config` that `init` of `huohuo.go` registers. -/
def Config : character.Config :=
  { Rarity := 5
    Element := model.DamageType.DamageType_WIND
    Path := model.Path.Path_ABUNDANCE
    MaxEnergy := 140
    SkillInfo :=
      { Attack := { SPAdd := 1, TargetType := model.TargetType.TargetType_ENEMIES }
        Skill := { SPNeed := 1, TargetType := model.TargetType.TargetType_ALLIES }
        Ult := { TargetType := model.TargetType.TargetType_ALLIES }
        Technique :=
          { TargetType := model.TargetType.TargetType_ENEMIES, IsAttack := false } } }

/-- The function `init` of `huohuo.go`: a single `character.Register(key.Huohuo, ...)`. -/
def init_huohuo (reg : character.Registry) : Option character.Registry :=
  character.Register reg key.Huohuo Config

/-- A callback held by the event bus.  `TalentActionStartListener receiver` is the Go
method value `c.TalentActionStartListener`, bound to its receiver; `foreign` stands
for the callbacks other packages subscribe. -/
inductive Callback (ε : Type) where
  | TalentActionStartListener (receiver : char ε)
  | foreign (tag : Nat)

/-- The function `NewInstance` of `huohuo.go`: the instance is built, its talent listener
is subscribed to `engine.Events().ActionStart`, and the instance is returned.  The
event system of the engine is threaded explicitly. -/
def NewInstance {ε : Type} (engine : ε) (id : key.TargetID) (charInfo : info.Character)
    (events : event.System (Callback ε)) : char ε × event.System (Callback ε) :=
  let c : char ε :=
    { engine := engine
      id := id
      info := charInfo
      DispelCount := 0
      TalentRound := 0 }
  (c, event.Subscribe events event.Kind.ActionStart (Callback.TalentActionStartListener c))

end huohuo

/-! ## `scripts/weapstat/generate.go` -/

namespace weapstat

/-- The class `\w` of Go regular expressions: `[0-9A-Za-z_]`. -/
def isWordChar (ch : Char) : Bool :=
  ('0' ≤ ch && ch ≤ '9') || ('A' ≤ ch && ch ≤ 'Z') || ('a' ≤ ch && ch ≤ 'z') || ch = '_'

/-- The class `\d` of Go regular expressions: `[0-9]`. -/
def isDigitChar (ch : Char) : Bool :=
  '0' ≤ ch && ch ≤ '9'

/-- The call `keyRegex.ReplaceAllString(src, repl)` for `keyRegex = \W+` and a literal
`repl`, on the characters of `src`: scanning left to right, every maximal run of
non-word characters is one match and is replaced by `repl`; word characters are
copied.  `inRun` tells whether the previous character already belongs to the current
match. -/
def keyRegexReplaceAll (repl : List Char) : Bool → List Char → List Char
  | _, [] => []
  | inRun, ch :: rest =>
    if isWordChar ch then ch :: keyRegexReplaceAll repl false rest
    else if inRun then keyRegexReplaceAll repl true rest
    else repl ++ keyRegexReplaceAll repl true rest

/-- The expression `keyRegex.ReplaceAllString(name, repl)` on strings. -/
def keyRegex.ReplaceAllString (src repl : String) : String :=
  String.mk (keyRegexReplaceAll repl.data false src.data)

/-- The function `strings.ToLower` on the ASCII letters; other characters are returned
as they are (a `Key` has none but ASCII word characters). -/
def strings.ToLower (s : String) : String :=
  String.mk (s.data.map Char.toLower)

/-- The literal part of `rarityRegex`. -/
def rarityLiteral : List Char := "CombatPowerLightconeRarity".data

/-- Matching a literal at the start of the input: the rest of the input after it. -/
def afterLiteral : List Char → List Char → Option (List Char)
  | [], s => some s
  | _ :: _, [] => none
  | l :: ls, ch :: rest => if l = ch then afterLiteral ls rest else none

/-- Matching `CombatPowerLightconeRarity(\d+)` at the start of the input: the literal,
then the longest run of digits, which must not be empty; the answer is the capture
group. -/
def rarityMatchHere (s : List Char) : Option (List Char) :=
  match afterLiteral rarityLiteral s with
  | none => none
  | some rest =>
    let digits := rest.takeWhile isDigitChar
    if digits = [] then none else some digits

/-- The call `rarityRegex.FindStringSubmatch(s)` on the characters of `s`: the leftmost
position where the expression matches decides; the answer is the whole match followed
by the capture group, or `nil` (the empty list) when there is no match. -/
def rarityFindSubmatch : List Char → List String
  | [] => []
  | ch :: rest =>
    match rarityMatchHere (ch :: rest) with
    | some digits => [String.mk (rarityLiteral ++ digits), String.mk digits]
    | none => rarityFindSubmatch rest

/-- The expression `rarityRegex.FindStringSubmatch(s)` on strings. -/
def rarityRegex.FindStringSubmatch (s : String) : List String :=
  rarityFindSubmatch s.data

/-- The function `strconv.Itoa` on the non-negative values the loop counter takes. -/
def strconv.Itoa (i : Nat) : String :=
  toString i

/-- Modelled from the spec: a value wrapper declared in `types.go`, read by the source
as `.Value`. -/
structure FloatValue where
  Value : ℚ
  deriving DecidableEq, Repr

/-- Modelled from the spec: an entry of `PromotionConfig` as declared in `types.go`, with
the fields `ProcessLightCone` reads. -/
structure PromotionEntry where
  MaxLevel : Int
  BaseAttack : FloatValue
  BaseAttackAdd : FloatValue
  BaseDefence : FloatValue
  BaseDefenceAdd : FloatValue
  BaseHP : FloatValue
  BaseHPAdd : FloatValue
  deriving DecidableEq, Repr

/-- Modelled from the spec: `PromotionConfig` of `types.go`, a Go map with string keys, kept
as the list of its entries; `len` is the number of entries and a lookup finds the
entry of a key. -/
abbrev PromotionConfig := List (String × PromotionEntry)

/-- Modelled from the spec: `EquipmentConfig` of `types.go`: the `Rarity` string and the
answer of the method `GetPath()`. -/
structure EquipmentConfig where
  Rarity : String
  GetPath : model.Path
  deriving DecidableEq, Repr

/-- Modelled from the spec: `lightcone.PromotionData`, with the seven fields the source
sets. -/
structure PromotionData where
  MaxLevel : Int
  ATKBase : ℚ
  ATKAdd : ℚ
  DEFBase : ℚ
  DEFAdd : ℚ
  HPBase : ℚ
  HPAdd : ℚ
  deriving DecidableEq, Repr

/-- The Go zero value of `lightcone.PromotionData`. -/
def PromotionData.zero : PromotionData :=
  { MaxLevel := 0, ATKBase := 0, ATKAdd := 0, DEFBase := 0, DEFAdd := 0, HPBase := 0, HPAdd := 0 }

/-- The composite literal assigned to `data.PromotionData[i]`. -/
def PromotionData.ofEntry (val : PromotionEntry) : PromotionData :=
  { MaxLevel := val.MaxLevel
    ATKBase := val.BaseAttack.Value
    ATKAdd := val.BaseAttackAdd.Value
    DEFBase := val.BaseDefence.Value
    DEFAdd := val.BaseDefenceAdd.Value
    HPBase := val.BaseHP.Value
    HPAdd := val.BaseHPAdd.Value }

/-- The struct `dataTmpl` of `generate.go`. -/
structure dataTmpl where
  Key : String
  KeyLower : String
  Rarity : String
  Path : model.Path
  PromotionData : List PromotionData
  deriving DecidableEq, Repr

/-- The loop `for i := 0; i < len(promotions); i++` of `ProcessLightCone`, from counter
value `i` on.  `fuel` bounds the iterations left; the loop is started with
`fuel = len(promotions)`, which it never exhausts before `i` reaches the length. -/
def promotionLoop (promotions : PromotionConfig) :
    Nat → Nat → List PromotionData → List PromotionData
  | 0, _, data => data
  | fuel + 1, i, data =>
    if i < promotions.length then
      match promotions.lookup (strconv.Itoa i) with
      | none => data
      | some val => promotionLoop promotions fuel (i + 1) (data.set i (PromotionData.ofEntry val))
    else data

/-- Lines 104 to 119 of `ProcessLightCone`: `make` allocates `len(promotions)` zero
values, then the loop fills them. -/
def promotionData (promotions : PromotionConfig) : List PromotionData :=
  promotionLoop promotions promotions.length 0
    (List.replicate promotions.length PromotionData.zero)

/-- The function `ProcessLightCone` up to the point where the template data is complete
(the rest writes the two generated files).  Indexing the match result at `[1]`
panics when there is no match. -/
def ProcessLightCone (name : String) (cone : EquipmentConfig) (promotions : PromotionConfig) :
    Option dataTmpl :=
  let Key := keyRegex.ReplaceAllString name ""
  let KeyLower := strings.ToLower Key
  match goIndex (rarityRegex.FindStringSubmatch cone.Rarity) 1 with
  | none => none
  | some Rarity =>
    some
      { Key := Key
        KeyLower := KeyLower
        Rarity := Rarity
        Path := cone.GetPath
        PromotionData := promotionData promotions }

end weapstat

namespace weapstat

/-- A concrete promotion table: the keys `"0"`, `"1"`, `"3"`, so
that index 2 is the first gap and key `"3"` lies beyond it. -/
def PromotionConfig.sample : PromotionConfig :=
  [ ("0", { MaxLevel := 20, BaseAttack := ⟨12⟩, BaseAttackAdd := ⟨2⟩, BaseDefence := ⟨9⟩,
            BaseDefenceAdd := ⟨1⟩, BaseHP := ⟨38⟩, BaseHPAdd := ⟨6⟩ }),
    ("1", { MaxLevel := 30, BaseAttack := ⟨26⟩, BaseAttackAdd := ⟨2⟩, BaseDefence := ⟨19⟩,
            BaseDefenceAdd := ⟨1⟩, BaseHP := ⟨84⟩, BaseHPAdd := ⟨6⟩ }),
    ("3", { MaxLevel := 50, BaseAttack := ⟨64⟩, BaseAttackAdd := ⟨2⟩, BaseDefence := ⟨48⟩,
            BaseDefenceAdd := ⟨1⟩, BaseHP := ⟨206⟩, BaseHPAdd := ⟨6⟩ }) ]

end weapstat

/-! ## Theorems -/

namespace huohuo

theorem ultLoop_recorder {ε α : Type} [Mul α] (chars : List key.TargetID)
    (maxE : key.TargetID → α) (c : char ε) (reason : key.Reason)
    (ultEnergy ultAttack : List α) (energy attack : α)
    (he : goIndex ultEnergy c.info.UltLevelIndex = some energy)
    (ha : goIndex ultAttack c.info.UltLevelIndex = some attack)
    (L : List key.TargetID) (s : List (Call α)) :
    char.UltLoop (recorder chars maxE) c reason ultEnergy ultAttack L s
      = some (s ++ (allies c.id L).flatMap (callsFor c.id reason maxE energy attack)) := by
  induction L generalizing s with
  | nil => simp [char.UltLoop, allies]
  | cons t rest ih =>
    by_cases h : c.id = t
    · have h2 : allies c.id (t :: rest) = allies c.id rest := by
        simp [allies, h]
      rw [h2]
      simp only [char.UltLoop, h, if_true]
      have := ih s
      rw [h] at this
      exact this
    · have h2 : allies c.id (t :: rest) = t :: allies c.id rest := by
        have : t ≠ c.id := fun e => h e.symm
        simp [allies, this]
      rw [h2]
      simp only [char.UltLoop, h, if_false, he, ha]
      rw [ih]
      simp [recorder, callsFor, List.flatMap_cons]

end huohuo

namespace huohuo

theorem addModifierCalls_append {α : Type} (xs ys : List (Call α)) :
    addModifierCalls (xs ++ ys) = addModifierCalls xs ++ addModifierCalls ys := by
  induction xs with
  | nil => rfl
  | cons x xs ih => cases x <;> simp [addModifierCalls, ih]

theorem energyRequests_append {α : Type} (xs ys : List (Call α)) :
    energyRequests (xs ++ ys) = energyRequests xs ++ energyRequests ys := by
  induction xs with
  | nil => rfl
  | cons x xs ih => cases x <;> simp [energyRequests, ih]

theorem addModifierCalls_flatMap {α : Type} [Mul α] (caster : key.TargetID)
    (reason : key.Reason) (maxE : key.TargetID → α) (energy attack : α)
    (L : List key.TargetID) :
    addModifierCalls (L.flatMap (callsFor caster reason maxE energy attack))
      = L.map (fun t => (t,
          ({ Name := UltBuff, Source := caster, Duration := 0, TickImmediately := false,
             Stats := [(prop.Property.ATKPercent, attack)] } : info.Modifier α))) := by
  induction L with
  | nil => rfl
  | cons t rest ih =>
    rw [List.flatMap_cons, addModifierCalls_append, ih]
    simp [callsFor, addModifierCalls]

theorem energyRequests_flatMap {α : Type} [Mul α] (caster : key.TargetID)
    (reason : key.Reason) (maxE : key.TargetID → α) (energy attack : α)
    (L : List key.TargetID) :
    energyRequests (L.flatMap (callsFor caster reason maxE energy attack))
      = L.map (fun t =>
          ({ Key := reason, Target := t, Source := caster, Amount := maxE t * energy } :
            info.ModifyAttribute α)) := by
  induction L with
  | nil => rfl
  | cons t rest ih =>
    rw [List.flatMap_cons, energyRequests_append, ih]
    simp [callsFor, energyRequests]

theorem mem_allies {caster t : key.TargetID} {chars : List key.TargetID} :
    t ∈ allies caster chars ↔ t ∈ chars ∧ t ≠ caster := by
  simp [allies]

theorem ultWith_recorder {ε ψ α : Type} [Mul α] (chars : List key.TargetID)
    (maxE : key.TargetID → α) (c : char ε) (reason : key.Reason)
    (ultEnergy ultAttack : List α) (energy attack : α)
    (he : goIndex ultEnergy c.info.UltLevelIndex = some energy)
    (ha : goIndex ultAttack c.info.UltLevelIndex = some attack)
    (target : key.TargetID) (state : ψ) (s : List (Call α)) :
    char.UltWith (recorder chars maxE) reason ultEnergy ultAttack c target state s
      = some (s ++ (allies c.id chars).flatMap (callsFor c.id reason maxE energy attack)) := by
  unfold char.UltWith
  exact ultLoop_recorder chars maxE c reason ultEnergy ultAttack energy attack he ha chars s

theorem ultLoop_no_allies {ε σ α : Type} [Mul α] (E : engine.Engine σ α) (c : char ε)
    (reason : key.Reason) (ultEnergy ultAttack : List α) (L : List key.TargetID)
    (h : ∀ t ∈ L, t = c.id) (s : σ) :
    char.UltLoop E c reason ultEnergy ultAttack L s = some s := by
  induction L with
  | nil => rfl
  | cons t rest ih =>
    have ht : c.id = t := (h t (List.mem_cons_self _ _)).symm
    simp only [char.UltLoop, ht, if_true]
    exact ih (fun u hu => h u (List.mem_cons_of_mem _ hu))

/-- C1: against the recording engine, whenever both table look-ups succeed, `char.Ult`
returns, the `AddModifier` calls of its trace are, in order, one `(t, huohuo-ult)` for
each element `t` of `Characters()` other than the caster, and no call of the trace
(neither `AddModifier` nor `ModifyEnergyFixed`) targets the caster.  Moreover, whatever
the tables, when every element of `Characters()` is the caster (in particular when the
list is empty) `char.Ult` returns the state of any engine unchanged. -/
theorem C1_ult_adds_modifier_to_every_other_ally {ε ψ α : Type} [Mul α]
    (chars : List key.TargetID) (maxE : key.TargetID → α) (c : char ε)
    (ultEnergy ultAttack : List α) (energy attack : α) (target : key.TargetID) (state : ψ)
    (he : goIndex ultEnergy c.info.UltLevelIndex = some energy)
    (ha : goIndex ultAttack c.info.UltLevelIndex = some attack) :
    (∃ tr, char.Ult (recorder chars maxE) ultEnergy ultAttack c target state [] = some tr
      ∧ (addModifierCalls tr).map (fun p => (p.1, p.2.Name))
          = (chars.filter (fun t => decide (t ≠ c.id))).map (fun t => (t, UltBuff))
      ∧ ∀ call ∈ tr, call.target ≠ c.id)
    ∧ ((∀ t ∈ chars, t = c.id) →
        ∀ (σ : Type) (E : engine.Engine σ α) (s : σ), E.Characters s = chars →
          char.Ult E ultEnergy ultAttack c target state s = some s) := by
  refine ⟨⟨_, ultWith_recorder chars maxE c Ult ultEnergy ultAttack energy attack he ha
    target state [], ?_, ?_⟩, ?_⟩
  · rw [List.nil_append, addModifierCalls_flatMap, List.map_map]
    rfl
  · intro call hcall
    rw [List.nil_append, List.mem_flatMap] at hcall
    obtain ⟨t, ht, hmem⟩ := hcall
    have hne : t ≠ c.id := (mem_allies.1 ht).2
    simp only [callsFor, List.mem_cons, List.mem_singleton, List.not_mem_nil, or_false] at hmem
    rcases hmem with h | h <;> subst h <;> exact hne
  · intro hall σ E s hE
    unfold char.Ult char.UltWith
    rw [hE]
    exact ultLoop_no_allies E c Ult ultEnergy ultAttack chars hall s

/-- C1, at a concrete input: caster 2 among the characters 1, 2, 3. -/
theorem C1_ult_adds_modifier_to_every_other_ally_witness :
    (∃ tr, char.Ult (recorder [1, 2, 3] (fun _ => (140 : ℚ))) [1 / 5] [1 / 5]
        ({ engine := (), id := 2, info := { UltLevelIndex := 0 }, DispelCount := 0,
           TalentRound := 0 } : char Unit) 7 () [] = some tr
      ∧ (addModifierCalls tr).map (fun p => (p.1, p.2.Name))
          = ([1, 2, 3].filter (fun t => decide (t ≠ (2 : key.TargetID)))).map
              (fun t => (t, UltBuff))
      ∧ ∀ call ∈ tr, call.target ≠ (2 : key.TargetID))
    ∧ ((∀ t ∈ ([1, 2, 3] : List key.TargetID), t = 2) →
        ∀ (σ : Type) (E : engine.Engine σ ℚ) (s : σ), E.Characters s = [1, 2, 3] →
          char.Ult E [1 / 5] [1 / 5]
            ({ engine := (), id := 2, info := { UltLevelIndex := 0 }, DispelCount := 0,
               TalentRound := 0 } : char Unit) 7 () s = some s) :=
  C1_ult_adds_modifier_to_every_other_ally [1, 2, 3] (fun _ => (140 : ℚ))
    { engine := (), id := 2, info := { UltLevelIndex := 0 }, DispelCount := 0,
      TalentRound := 0 } [1 / 5] [1 / 5] (1 / 5) (1 / 5) 7 () rfl rfl

theorem filter_eq_singleton (L : List key.TargetID) (t : key.TargetID) (hn : L.Nodup)
    (ht : t ∈ L) : L.filter (fun u => decide (u = t)) = [t] := by
  rw [List.filter_eq, List.count_eq_one_of_mem hn ht]
  rfl

/-- C2: against the recording engine, whenever both table look-ups succeed, the
`ModifyEnergyFixed` requests of `char.Ult` are, in order, one request for each element
`t` of `Characters()` other than the caster, with `Amount = MaxEnergy(t) * energy` where
`energy = ultEnergy[UltLevelIndex()]` (the recipient's maximum, not the caster's); when
`Characters()` has no repetition there is exactly one request per such `t`; and in
exact arithmetic a recipient with `MaxEnergy(t) = 140` (the value of the registered
`Config`) and coefficient `1/5` is asked to receive `28`. -/
theorem C2_ult_energy_amount {ε ψ : Type} (chars : List key.TargetID)
    (maxE : key.TargetID → ℚ) (c : char ε) (ultEnergy ultAttack : List ℚ)
    (energy attack : ℚ) (target : key.TargetID) (state : ψ)
    (he : goIndex ultEnergy c.info.UltLevelIndex = some energy)
    (ha : goIndex ultAttack c.info.UltLevelIndex = some attack) :
    ∃ tr, char.Ult (recorder chars maxE) ultEnergy ultAttack c target state [] = some tr
      ∧ energyRequests tr
          = (chars.filter (fun t => decide (t ≠ c.id))).map (fun t =>
              ({ Key := Ult, Target := t, Source := c.id, Amount := maxE t * energy } :
                info.ModifyAttribute ℚ))
      ∧ (chars.Nodup → ∀ t ∈ chars, t ≠ c.id →
          (energyRequests tr).filter (fun d => decide (d.Target = t))
            = [{ Key := Ult, Target := t, Source := c.id, Amount := maxE t * energy }])
      ∧ (∀ d ∈ energyRequests tr, maxE d.Target = Config.MaxEnergy → energy = 1 / 5 →
          d.Amount = 28) := by
  refine ⟨_, ultWith_recorder chars maxE c Ult ultEnergy ultAttack energy attack he ha
    target state [], ?_, ?_, ?_⟩
  · rw [List.nil_append, energyRequests_flatMap]
    rfl
  · intro hn t ht hne
    rw [List.nil_append, energyRequests_flatMap, List.filter_map]
    have hmem : t ∈ allies c.id chars := mem_allies.2 ⟨ht, hne⟩
    have hnd : (allies c.id chars).Nodup := hn.filter _
    have := filter_eq_singleton (allies c.id chars) t hnd hmem
    simp only [Function.comp_def]
    rw [this]
    rfl
  · intro d hd hmax hen
    rw [List.nil_append, energyRequests_flatMap, List.mem_map] at hd
    obtain ⟨t, _, rfl⟩ := hd
    simp only at hmax ⊢
    rw [hmax, hen]
    norm_num [Config]

/-- C2, at a concrete input: caster 2 among the characters 1, 2, 3, every maximum 140,
coefficient 1/5. -/
theorem C2_ult_energy_amount_witness :
    ∃ tr, char.Ult (recorder [1, 2, 3] (fun _ => (140 : ℚ))) [1 / 5] [3 / 10]
        ({ engine := (), id := 2, info := { UltLevelIndex := 0 }, DispelCount := 0,
           TalentRound := 0 } : char Unit) 7 () [] = some tr
      ∧ energyRequests tr
          = ([1, 2, 3].filter (fun t => decide (t ≠ (2 : key.TargetID)))).map (fun t =>
              ({ Key := Ult, Target := t, Source := 2, Amount := 140 * (1 / 5) } :
                info.ModifyAttribute ℚ))
      ∧ (([1, 2, 3] : List key.TargetID).Nodup → ∀ t ∈ ([1, 2, 3] : List key.TargetID),
          t ≠ 2 →
          (energyRequests tr).filter (fun d => decide (d.Target = t))
            = [{ Key := Ult, Target := t, Source := 2, Amount := 140 * (1 / 5) }])
      ∧ (∀ d ∈ energyRequests tr, (140 : ℚ) = Config.MaxEnergy → (1 / 5 : ℚ) = 1 / 5 →
          d.Amount = 28) :=
  C2_ult_energy_amount [1, 2, 3] (fun _ => (140 : ℚ))
    { engine := (), id := 2, info := { UltLevelIndex := 0 }, DispelCount := 0,
      TalentRound := 0 } [1 / 5] [3 / 10] (1 / 5) (3 / 10) 7 () rfl rfl

theorem map_withoutReason_callsFor {α : Type} [Mul α] (caster : key.TargetID)
    (r r' : key.Reason) (maxE : key.TargetID → α) (energy attack : α)
    (L : List key.TargetID) :
    (L.flatMap (callsFor caster r maxE energy attack)).map Call.withoutReason
      = (L.flatMap (callsFor caster r' maxE energy attack)).map Call.withoutReason := by
  induction L with
  | nil => rfl
  | cons t rest ih =>
    simp only [List.flatMap_cons, List.map_append, ih]
    rfl

/-- C6: against the recording engine, whenever both table look-ups succeed, every
`ModifyEnergyFixed` request of `char.Ult` carries `Key = "huohuo-ult"` and
`Source =` the caster id, and the targets of the requests are, in order, the elements
of `Characters()` other than the caster.  The reason is metadata only: running the
same method with any other reason value gives a trace that differs from the original
at most in the `Key` of its energy requests (same calls in the same order, with the
same `Target`, `Source`, `Amount`, and the same `AddModifier` calls), and the new
requests carry the new reason. -/
theorem C6_ult_energy_reason_tag {ε ψ α : Type} [Mul α] (chars : List key.TargetID)
    (maxE : key.TargetID → α) (c : char ε) (ultEnergy ultAttack : List α)
    (energy attack : α) (target : key.TargetID) (state : ψ)
    (he : goIndex ultEnergy c.info.UltLevelIndex = some energy)
    (ha : goIndex ultAttack c.info.UltLevelIndex = some attack) :
    ∃ tr, char.Ult (recorder chars maxE) ultEnergy ultAttack c target state [] = some tr
      ∧ (∀ d ∈ energyRequests tr, d.Key = "huohuo-ult" ∧ d.Source = c.id)
      ∧ (energyRequests tr).map (fun d => d.Target)
          = chars.filter (fun t => decide (t ≠ c.id))
      ∧ ∀ reason : key.Reason,
          ∃ tr', char.UltWith (recorder chars maxE) reason ultEnergy ultAttack c target
                state [] = some tr'
            ∧ tr'.map Call.withoutReason = tr.map Call.withoutReason
            ∧ addModifierCalls tr' = addModifierCalls tr
            ∧ (energyRequests tr').map (fun d => (d.Target, d.Source, d.Amount))
                = (energyRequests tr).map (fun d => (d.Target, d.Source, d.Amount))
            ∧ ∀ d ∈ energyRequests tr', d.Key = reason := by
  refine ⟨_, ultWith_recorder chars maxE c Ult ultEnergy ultAttack energy attack he ha
    target state [], ?_, ?_, ?_⟩
  · intro d hd
    rw [List.nil_append, energyRequests_flatMap, List.mem_map] at hd
    obtain ⟨t, _, rfl⟩ := hd
    exact ⟨rfl, rfl⟩
  · rw [List.nil_append, energyRequests_flatMap, List.map_map]
    exact List.map_id _
  · intro reason
    refine ⟨_, ultWith_recorder chars maxE c reason ultEnergy ultAttack energy attack he ha
      target state [], ?_, ?_, ?_, ?_⟩
    · simp only [List.nil_append]
      exact map_withoutReason_callsFor c.id reason Ult maxE energy attack _
    · simp only [List.nil_append, addModifierCalls_flatMap]
    · simp only [List.nil_append, energyRequests_flatMap, List.map_map]
      rfl
    · intro d hd
      rw [List.nil_append, energyRequests_flatMap, List.mem_map] at hd
      obtain ⟨t, _, rfl⟩ := hd
      rfl

/-- C6, at a concrete input: caster 2 among the characters 1, 2, 3. -/
theorem C6_ult_energy_reason_tag_witness :
    ∃ tr, char.Ult (recorder [1, 2, 3] (fun _ => (140 : ℚ))) [1 / 5] [3 / 10]
        ({ engine := (), id := 2, info := { UltLevelIndex := 0 }, DispelCount := 0,
           TalentRound := 0 } : char Unit) 7 () [] = some tr
      ∧ (∀ d ∈ energyRequests tr, d.Key = "huohuo-ult" ∧ d.Source = (2 : key.TargetID))
      ∧ (energyRequests tr).map (fun d => d.Target)
          = [1, 2, 3].filter (fun t => decide (t ≠ (2 : key.TargetID)))
      ∧ ∀ reason : key.Reason,
          ∃ tr', char.UltWith (recorder [1, 2, 3] (fun _ => (140 : ℚ))) reason [1 / 5]
                [3 / 10]
                ({ engine := (), id := 2, info := { UltLevelIndex := 0 }, DispelCount := 0,
                   TalentRound := 0 } : char Unit) 7 () [] = some tr'
            ∧ tr'.map Call.withoutReason = tr.map Call.withoutReason
            ∧ addModifierCalls tr' = addModifierCalls tr
            ∧ (energyRequests tr').map (fun d => (d.Target, d.Source, d.Amount))
                = (energyRequests tr).map (fun d => (d.Target, d.Source, d.Amount))
            ∧ ∀ d ∈ energyRequests tr', d.Key = reason :=
  C6_ult_energy_reason_tag [1, 2, 3] (fun _ => (140 : ℚ))
    { engine := (), id := 2, info := { UltLevelIndex := 0 }, DispelCount := 0,
      TalentRound := 0 } [1 / 5] [3 / 10] (1 / 5) (3 / 10) 7 () rfl rfl

theorem ultLoop_recorder_congr {ε ε' α : Type} [Mul α] (chars chars' : List key.TargetID)
    (maxE maxE' : key.TargetID → α) (c : char ε) (c' : char ε') (reason : key.Reason)
    (ultEnergy ultAttack : List α) (hid : c.id = c'.id)
    (hlevel : c.info.UltLevelIndex = c'.info.UltLevelIndex)
    (L : List key.TargetID) (hmax : ∀ t ∈ L, maxE t = maxE' t) (s : List (Call α)) :
    char.UltLoop (recorder chars maxE) c reason ultEnergy ultAttack L s
      = char.UltLoop (recorder chars' maxE') c' reason ultEnergy ultAttack L s := by
  induction L generalizing s with
  | nil => rfl
  | cons t rest ih =>
    have hrest : ∀ u ∈ rest, maxE u = maxE' u := fun u hu => hmax u (List.mem_cons_of_mem _ hu)
    have ht : maxE t = maxE' t := hmax t (List.mem_cons_self _ _)
    simp only [char.UltLoop, ← hid, ← hlevel]
    by_cases h : c.id = t
    · simp only [h, if_true]
      exact ih hrest s
    · simp only [h, if_false]
      cases goIndex ultEnergy c.info.UltLevelIndex with
      | none => rfl
      | some energy =>
        cases goIndex ultAttack c.info.UltLevelIndex with
        | none => rfl
        | some attack =>
          simp only [recorder, ht]
          exact ih hrest _

theorem getElem?_flatMap_callsFor {α : Type} [Mul α] (caster : key.TargetID)
    (reason : key.Reason) (maxE : key.TargetID → α) (energy attack : α)
    (L : List key.TargetID) (k : Nat) (t : key.TargetID) (hk : L[k]? = some t) :
    (L.flatMap (callsFor caster reason maxE energy attack))[2 * k]?
        = some (Call.ModifyEnergyFixed
            { Key := reason, Target := t, Source := caster, Amount := maxE t * energy })
      ∧ (L.flatMap (callsFor caster reason maxE energy attack))[2 * k + 1]?
        = some (Call.AddModifier t
            { Name := UltBuff, Source := caster, Duration := 0, TickImmediately := false,
              Stats := [(prop.Property.ATKPercent, attack)] }) := by
  induction L generalizing k with
  | nil => simp at hk
  | cons u rest ih =>
    cases k with
    | zero =>
      simp only [List.getElem?_cons_zero, Option.some.injEq] at hk
      subst hk
      simp [List.flatMap_cons, callsFor]
    | succ k =>
      simp only [List.getElem?_cons_succ] at hk
      have h2 : 2 * (k + 1) = 2 * k + 1 + 1 := by ring
      rw [h2]
      simpa [List.flatMap_cons, callsFor] using ih k hk

theorem length_flatMap_callsFor {α : Type} [Mul α] (caster : key.TargetID)
    (reason : key.Reason) (maxE : key.TargetID → α) (energy attack : α)
    (L : List key.TargetID) :
    (L.flatMap (callsFor caster reason maxE energy attack)).length = 2 * L.length := by
  induction L with
  | nil => rfl
  | cons u rest ih =>
    simp only [List.flatMap_cons, List.length_append, ih, List.length_cons, callsFor,
      List.length_nil]
    ring

/-- C8: `char.Ult` reads nothing of the caster but its id and its `UltLevelIndex()`, and
nothing of the engine but the answers of `Characters()` and `MaxEnergy`: two casters
with the same id and level index, given any `target` and `state` arguments, and two
recording engines whose `MaxEnergy` answers agree on the listed characters, produce the
same result (the same trace of facade calls, or the same panic).  And whenever both
table look-ups succeed the trace has two calls per non-caster ally, in the order of
`Characters()`: for the `k`-th such ally `t`, call `2k` is its `ModifyEnergyFixed`
and call `2k+1` is its `AddModifier`. -/
theorem C8_ult_deterministic_call_order {ε ε' ψ ψ' α : Type} [Mul α]
    (chars : List key.TargetID) (maxE maxE' : key.TargetID → α) (c : char ε) (c' : char ε')
    (ultEnergy ultAttack : List α) (target target' : key.TargetID) (state : ψ)
    (state' : ψ')
    (hid : c.id = c'.id) (hlevel : c.info.UltLevelIndex = c'.info.UltLevelIndex)
    (hmax : ∀ t ∈ chars, maxE t = maxE' t) :
    char.Ult (recorder chars maxE) ultEnergy ultAttack c target state []
        = char.Ult (recorder chars maxE') ultEnergy ultAttack c' target' state' []
    ∧ ∀ energy attack, goIndex ultEnergy c.info.UltLevelIndex = some energy →
        goIndex ultAttack c.info.UltLevelIndex = some attack →
        ∃ tr, char.Ult (recorder chars maxE) ultEnergy ultAttack c target state [] = some tr
          ∧ tr.length = 2 * (chars.filter (fun t => decide (t ≠ c.id))).length
          ∧ ∀ k t, (chars.filter (fun t => decide (t ≠ c.id)))[k]? = some t →
              tr[2 * k]? = some (Call.ModifyEnergyFixed
                  { Key := Ult, Target := t, Source := c.id, Amount := maxE t * energy })
              ∧ tr[2 * k + 1]? = some (Call.AddModifier t
                  { Name := UltBuff, Source := c.id, Duration := 0, TickImmediately := false,
                    Stats := [(prop.Property.ATKPercent, attack)] }) := by
  constructor
  · unfold char.Ult char.UltWith
    exact ultLoop_recorder_congr chars chars maxE maxE' c c' Ult ultEnergy ultAttack hid
      hlevel chars hmax []
  · intro energy attack he ha
    refine ⟨_, ultWith_recorder chars maxE c Ult ultEnergy ultAttack energy attack he ha
      target state [], ?_, ?_⟩
    · rw [List.nil_append, length_flatMap_callsFor]
      rfl
    · intro k t hk
      rw [List.nil_append]
      exact getElem?_flatMap_callsFor c.id Ult maxE energy attack _ k t hk

/-- C8, at a concrete input: two casters with id 2 and level index 0 that differ in
their counters, with different `target` arguments. -/
theorem C8_ult_deterministic_call_order_witness :
    char.Ult (recorder [1, 2, 3] (fun _ => (140 : ℚ))) [1 / 5] [3 / 10]
        ({ engine := (), id := 2, info := { UltLevelIndex := 0 }, DispelCount := 0,
           TalentRound := 0 } : char Unit) 7 () []
        = char.Ult (recorder [1, 2, 3] (fun _ => (140 : ℚ))) [1 / 5] [3 / 10]
            ({ engine := (), id := 2, info := { UltLevelIndex := 0 }, DispelCount := 4,
               TalentRound := 1 } : char Unit) 9 true []
    ∧ ∀ energy attack, goIndex [(1 / 5 : ℚ)] 0 = some energy →
        goIndex [(3 / 10 : ℚ)] 0 = some attack →
        ∃ tr, char.Ult (recorder [1, 2, 3] (fun _ => (140 : ℚ))) [1 / 5] [3 / 10]
            ({ engine := (), id := 2, info := { UltLevelIndex := 0 }, DispelCount := 0,
               TalentRound := 0 } : char Unit) 7 () [] = some tr
          ∧ tr.length = 2 * ([1, 2, 3].filter (fun t => decide (t ≠ (2 : key.TargetID)))).length
          ∧ ∀ k t, ([1, 2, 3].filter (fun t => decide (t ≠ (2 : key.TargetID))))[k]? = some t →
              tr[2 * k]? = some (Call.ModifyEnergyFixed
                  { Key := Ult, Target := t, Source := 2, Amount := 140 * energy })
              ∧ tr[2 * k + 1]? = some (Call.AddModifier t
                  { Name := UltBuff, Source := 2, Duration := 0, TickImmediately := false,
                    Stats := [(prop.Property.ATKPercent, attack)] }) :=
  C8_ult_deterministic_call_order [1, 2, 3] (fun _ => (140 : ℚ)) (fun _ => (140 : ℚ))
    { engine := (), id := 2, info := { UltLevelIndex := 0 }, DispelCount := 0,
      TalentRound := 0 }
    { engine := (), id := 2, info := { UltLevelIndex := 0 }, DispelCount := 4,
      TalentRound := 1 } [1 / 5] [3 / 10] 7 9 () true rfl rfl (fun _ _ => rfl)

theorem register_fresh (reg : modifier.Registry) (k : key.Modifier) (config : modifier.Config)
    (h : reg.find k = none) :
    modifier.Register reg k config = some (reg ++ [(k, config)]) := by
  unfold modifier.Register
  have : reg.any (fun entry => decide (entry.1 = k)) = false := by
    unfold modifier.Registry.find at h
    simp only [Option.map_eq_none', List.find?_eq_none] at h
    rw [List.any_eq_false]
    intro x hx
    simpa using h x hx
  rw [this]
  rfl

theorem find_after_register (reg : modifier.Registry) (k : key.Modifier)
    (config : modifier.Config) (h : reg.find k = none) :
    modifier.Registry.find (reg ++ [(k, config)]) k = some config := by
  unfold modifier.Registry.find at h ⊢
  simp only [Option.map_eq_none'] at h
  rw [List.find?_append, h]
  simp

end huohuo

/-! ### The ultimate on the facade of the spec -/

namespace engine

theorem addModifier_currentEnergy (s : State) (t : key.TargetID) (m : info.Modifier ℚ) :
    (s.AddModifier t m).currentEnergy = s.currentEnergy := by
  unfold State.AddModifier
  split <;> rfl

theorem addModifier_maxEnergy (s : State) (t : key.TargetID) (m : info.Modifier ℚ) :
    (s.AddModifier t m).maxEnergy = s.maxEnergy := by
  unfold State.AddModifier
  split <;> rfl

theorem addModifier_characters (s : State) (t : key.TargetID) (m : info.Modifier ℚ) :
    (s.AddModifier t m).characters = s.characters := by
  unfold State.AddModifier
  split <;> rfl

theorem addModifier_registry (s : State) (t : key.TargetID) (m : info.Modifier ℚ) :
    (s.AddModifier t m).registry = s.registry := by
  unfold State.AddModifier
  split <;> rfl

theorem saturate_bounds (maxEnergy x : ℚ) (h : 0 ≤ maxEnergy) :
    0 ≤ saturate maxEnergy x ∧ saturate maxEnergy x ≤ maxEnergy := by
  unfold saturate
  exact ⟨le_max_left _ _, max_le h (min_le_right _ _)⟩

theorem saturate_of_nonneg (maxEnergy x : ℚ) (h : 0 ≤ maxEnergy) (hx : 0 ≤ x) :
    saturate maxEnergy x = min x maxEnergy := by
  unfold saturate
  exact max_eq_right (le_min hx h)

end engine

namespace huohuo

open engine

/-- What the loop of `char.Ult` does to the energy fields of the facade state. -/
theorem ultLoop_facade_energy {ε : Type} (c : char ε) (reason : key.Reason)
    (ultEnergy ultAttack : List ℚ) (energy attack : ℚ)
    (he : goIndex ultEnergy c.info.UltLevelIndex = some energy)
    (ha : goIndex ultAttack c.info.UltLevelIndex = some attack)
    (L : List key.TargetID) (s : State) :
    ∃ s', char.UltLoop facade c reason ultEnergy ultAttack L s = some s'
      ∧ s'.maxEnergy = s.maxEnergy ∧ s'.characters = s.characters
      ∧ s'.registry = s.registry
      ∧ (∀ t, t ∉ L ∨ t = c.id → s'.currentEnergy t = s.currentEnergy t)
      ∧ (L.Nodup → ∀ t ∈ L, t ≠ c.id →
          s'.currentEnergy t
            = saturate (s.maxEnergy t) (s.currentEnergy t + s.maxEnergy t * energy))
      ∧ (s.EnergyInBounds → s'.EnergyInBounds) := by
  induction L generalizing s with
  | nil => exact ⟨s, rfl, rfl, rfl, rfl, fun _ _ => rfl, fun _ t ht => by simp at ht, id⟩
  | cons u rest ih =>
    by_cases h : c.id = u
    · obtain ⟨s', hs', hmax, hch, hreg, hsame, hgrant, hinv⟩ := ih s
      refine ⟨s', ?_, hmax, hch, hreg, ?_, ?_, hinv⟩
      · simp only [char.UltLoop, h, if_true]
        exact hs'
      · intro t ht
        rcases ht with ht | ht
        · exact hsame t (Or.inl fun hm => ht (List.mem_cons_of_mem _ hm))
        · exact hsame t (Or.inr ht)
      · intro hnd t ht hne
        rcases List.mem_cons.1 ht with rfl | ht'
        · exact absurd h.symm hne
        · exact hgrant (List.nodup_cons.1 hnd).2 t ht' hne
    · let s2 : State :=
        (s.ModifyEnergyFixed
          { Key := reason, Target := u, Source := c.id, Amount := s.maxEnergy u * energy }
          ).AddModifier u
          { Name := UltBuff, Source := c.id, Duration := 0, TickImmediately := false,
            Stats := [(prop.Property.ATKPercent, attack)] }
      have hcur2 : s2.currentEnergy = Function.update s.currentEnergy u
          (saturate (s.maxEnergy u) (s.currentEnergy u + s.maxEnergy u * energy)) := by
        show (State.AddModifier _ _ _).currentEnergy = _
        rw [addModifier_currentEnergy]
        rfl
      have hmax2 : s2.maxEnergy = s.maxEnergy := by
        show (State.AddModifier _ _ _).maxEnergy = _
        rw [addModifier_maxEnergy]
        rfl
      have hch2 : s2.characters = s.characters := by
        show (State.AddModifier _ _ _).characters = _
        rw [addModifier_characters]
        rfl
      have hreg2 : s2.registry = s.registry := by
        show (State.AddModifier _ _ _).registry = _
        rw [addModifier_registry]
        rfl
      obtain ⟨s', hs', hmax, hch, hreg, hsame, hgrant, hinv⟩ := ih s2
      refine ⟨s', ?_, hmax.trans hmax2, hch.trans hch2, hreg.trans hreg2, ?_, ?_, ?_⟩
      · simp only [char.UltLoop, h, if_false, he, ha]
        exact hs'
      · intro t ht
        have htu : t ≠ u := by
          rcases ht with ht | ht
          · exact fun e => ht (e ▸ List.mem_cons_self _ _)
          · exact fun e => h (ht.symm.trans e)
        have hstep : s'.currentEnergy t = s2.currentEnergy t := by
          rcases ht with ht | ht
          · exact hsame t (Or.inl fun hm => ht (List.mem_cons_of_mem _ hm))
          · exact hsame t (Or.inr ht)
        rw [hstep, hcur2, Function.update_noteq htu]
      · intro hnd t ht hne
        have hnd' := List.nodup_cons.1 hnd
        rcases List.mem_cons.1 ht with rfl | ht'
        · rw [hsame t (Or.inl hnd'.1), hcur2, Function.update_same]
        · have htu : t ≠ u := fun e => hnd'.1 (e ▸ ht')
          rw [hgrant hnd'.2 t ht' hne, hmax2, hcur2, Function.update_noteq htu]
      · intro hb
        apply hinv
        intro t
        rw [hcur2, hmax2]
        by_cases htu : t = u
        · subst htu
          rw [Function.update_same]
          exact saturate_bounds _ _ (le_trans (hb t).1 (hb t).2)
        · rw [Function.update_noteq htu]
          exact hb t

/-- C3: over the facade of the spec (whose `ModifyEnergyFixed` saturates at
`[0, MaxEnergy]`), from every state whose characters are distinct and whose energies
satisfy `0 <= CurrentEnergy <= MaxEnergy`, whenever both table look-ups succeed,
`char.Ult` returns a state in which every target still satisfies
`0 <= CurrentEnergy <= MaxEnergy` and has its `MaxEnergy` unchanged; each non-caster
ally `t` ends at the saturation of `old(t) + MaxEnergy(t) * coefficient`, which for a
coefficient that is not negative is `min (old(t) + MaxEnergy(t) * coefficient)
(MaxEnergy(t))` (so `140` when `MaxEnergy = 140`, the coefficient is `1/5` and
`old > 112`, and `old + 28` when `old <= 112`); the caster's `CurrentEnergy`, and that
of every target not listed, is unchanged. -/
theorem C3_ult_energy_saturates {ε ψ : Type} (s : State) (c : char ε)
    (ultEnergy ultAttack : List ℚ) (energy attack : ℚ) (target : key.TargetID) (state : ψ)
    (hchars : s.characters.Nodup) (hbounds : s.EnergyInBounds)
    (he : goIndex ultEnergy c.info.UltLevelIndex = some energy)
    (ha : goIndex ultAttack c.info.UltLevelIndex = some attack) :
    ∃ s', char.Ult facade ultEnergy ultAttack c target state s = some s'
      ∧ (∀ t, 0 ≤ s'.currentEnergy t ∧ s'.currentEnergy t ≤ s'.maxEnergy t)
      ∧ (∀ t, s'.maxEnergy t = s.maxEnergy t)
      ∧ (∀ t ∈ s.characters, t ≠ c.id →
          s'.currentEnergy t
            = max 0 (min (s.currentEnergy t + s.maxEnergy t * energy) (s.maxEnergy t)))
      ∧ (0 ≤ energy → ∀ t ∈ s.characters, t ≠ c.id →
          s'.currentEnergy t
            = min (s.currentEnergy t + s.maxEnergy t * energy) (s.maxEnergy t))
      ∧ (energy = 1 / 5 → ∀ t ∈ s.characters, t ≠ c.id → s.maxEnergy t = 140 →
          (112 < s.currentEnergy t → s'.currentEnergy t = 140)
          ∧ (s.currentEnergy t ≤ 112 → s'.currentEnergy t = s.currentEnergy t + 28))
      ∧ s'.currentEnergy c.id = s.currentEnergy c.id
      ∧ (∀ t, t ∉ s.characters → s'.currentEnergy t = s.currentEnergy t) := by
  obtain ⟨s', hs', hmax, _, _, hsame, hgrant, hinv⟩ :=
    ultLoop_facade_energy c Ult ultEnergy ultAttack energy attack he ha s.characters s
  have hmin : 0 ≤ energy → ∀ t ∈ s.characters, t ≠ c.id →
      s'.currentEnergy t
        = min (s.currentEnergy t + s.maxEnergy t * energy) (s.maxEnergy t) := by
    intro hen t ht hne
    rw [hgrant hchars t ht hne]
    have hM : 0 ≤ s.maxEnergy t := le_trans (hbounds t).1 (hbounds t).2
    exact saturate_of_nonneg _ _ hM (add_nonneg (hbounds t).1 (mul_nonneg hM hen))
  refine ⟨s', hs', hinv hbounds, fun t => by rw [hmax], ?_, hmin, ?_,
    hsame c.id (Or.inr rfl), fun t ht => hsame t (Or.inl ht)⟩
  · intro t ht hne
    rw [hgrant hchars t ht hne]
    rfl
  · intro hen t ht hne hM
    have h := hmin (by rw [hen]; norm_num) t ht hne
    rw [hM, hen] at h
    have h28 : (140 : ℚ) * (1 / 5) = 28 := by norm_num
    rw [h28] at h
    constructor
    · intro hold
      rw [h]
      exact min_eq_right (by linarith)
    · intro hold
      rw [h]
      exact min_eq_left (by linarith)

/-- C3, at a concrete input: caster 2 on the sample state (characters 1, 2, 3, all at
120 of 140), coefficient 1/5. -/
theorem C3_ult_energy_saturates_witness :
    ∃ s', char.Ult facade [1 / 5] [3 / 10]
        ({ engine := (), id := 2, info := { UltLevelIndex := 0 }, DispelCount := 0,
           TalentRound := 0 } : char Unit) 7 () State.sample = some s'
      ∧ (∀ t, 0 ≤ s'.currentEnergy t ∧ s'.currentEnergy t ≤ s'.maxEnergy t)
      ∧ (∀ t, s'.maxEnergy t = State.sample.maxEnergy t)
      ∧ (∀ t ∈ State.sample.characters, t ≠ (2 : key.TargetID) →
          s'.currentEnergy t
            = max 0 (min (State.sample.currentEnergy t + State.sample.maxEnergy t * (1 / 5))
                (State.sample.maxEnergy t)))
      ∧ (0 ≤ (1 / 5 : ℚ) → ∀ t ∈ State.sample.characters, t ≠ (2 : key.TargetID) →
          s'.currentEnergy t
            = min (State.sample.currentEnergy t + State.sample.maxEnergy t * (1 / 5))
                (State.sample.maxEnergy t))
      ∧ ((1 / 5 : ℚ) = 1 / 5 → ∀ t ∈ State.sample.characters, t ≠ (2 : key.TargetID) →
          State.sample.maxEnergy t = 140 →
          (112 < State.sample.currentEnergy t → s'.currentEnergy t = 140)
          ∧ (State.sample.currentEnergy t ≤ 112 →
              s'.currentEnergy t = State.sample.currentEnergy t + 28))
      ∧ s'.currentEnergy (2 : key.TargetID) = State.sample.currentEnergy 2
      ∧ (∀ t, t ∉ State.sample.characters →
          s'.currentEnergy t = State.sample.currentEnergy t) :=
  C3_ult_energy_saturates State.sample
    { engine := (), id := 2, info := { UltLevelIndex := 0 }, DispelCount := 0,
      TalentRound := 0 } [1 / 5] [3 / 10] (1 / 5) (3 / 10) 7 ()
    (by decide) (by intro t; norm_num [State.sample]) rfl rfl

end huohuo

/-! ### Replace stacking -/

namespace modifier

theorem merge_name (config : Config) (m : info.Modifier ℚ) (old : Instance) :
    (merge config m old).name = old.name := by
  unfold merge
  split <;> rfl

theorem apply_names (config : Config) (owner : key.TargetID) (m : info.Modifier ℚ)
    (l : List Instance) :
    (Apply config owner m l).map (fun i => i.name)
      = if m.Name ∈ l.map (fun i => i.name) then l.map (fun i => i.name)
        else l.map (fun i => i.name) ++ [m.Name] := by
  induction l with
  | nil => simp [Apply, newInstance]
  | cons old rest ih =>
    by_cases h : old.name = m.Name
    · simp [Apply, h, merge_name]
    · have h' : ¬ m.Name = old.name := fun e => h e.symm
      simp only [Apply, h, if_false, List.map_cons, ih, List.mem_cons, h', false_or]
      split <;> simp

theorem apply_names_nodup (config : Config) (owner : key.TargetID) (m : info.Modifier ℚ)
    (l : List Instance) (hnd : (l.map (fun i => i.name)).Nodup) :
    ((Apply config owner m l).map (fun i => i.name)).Nodup := by
  rw [apply_names]
  split
  · exact hnd
  · rename_i hmem
    rw [List.nodup_append]
    refine ⟨hnd, List.nodup_singleton _, ?_⟩
    intro a ha hb
    rw [List.mem_singleton] at hb
    exact hmem (hb ▸ ha)

theorem apply_replace_filter (config : Config)
    (hR : config.Stacking = StackingBehavior.Replace) (owner : key.TargetID)
    (m : info.Modifier ℚ) (l : List Instance) (hnd : (l.map (fun i => i.name)).Nodup) :
    ∃ inst, (Apply config owner m l).filter (fun i => decide (i.name = m.Name)) = [inst]
      ∧ inst.source = m.Source ∧ inst.duration = startDuration config m
      ∧ inst.stats = m.Stats := by
  induction l with
  | nil => exact ⟨newInstance config owner m, by simp [Apply, newInstance], rfl, rfl, rfl⟩
  | cons old rest ih =>
    rw [List.map_cons, List.nodup_cons] at hnd
    by_cases h : old.name = m.Name
    · refine ⟨merge config m old, ?_, ?_, ?_, ?_⟩
      · have hrest : rest.filter (fun i => decide (i.name = m.Name)) = [] := by
          rw [List.filter_eq_nil_iff]
          intro x hx
          have : x.name ≠ old.name := fun e =>
            hnd.1 (e ▸ List.mem_map_of_mem (fun i => i.name) hx)
          simpa [← h] using this
        simp only [Apply, h, if_true]
        rw [List.filter_cons_of_pos (by simp [merge_name, h]), hrest]
      · simp [merge, hR]
      · simp [merge, hR]
      · simp [merge, hR]
    · obtain ⟨inst, hfilter, hrest⟩ := ih hnd.2
      refine ⟨inst, ?_, hrest⟩
      simp only [Apply, h, if_false]
      rw [List.filter_cons_of_neg (by simpa using h)]
      exact hfilter

end modifier

namespace engine

theorem addModifier_modifiers (s : State) (t : key.TargetID) (m : info.Modifier ℚ)
    (config : modifier.Config) (h : s.registry.find m.Name = some config) :
    (s.AddModifier t m).modifiers
      = Function.update s.modifiers t (modifier.Apply config t m (s.modifiers t)) := by
  unfold State.AddModifier
  rw [h]

end engine

namespace huohuo

open engine

/-- What the loop of `char.Ult` does to the modifier store of the facade state. -/
theorem ultLoop_facade_modifiers {ε : Type} (c : char ε) (reason : key.Reason)
    (ultEnergy ultAttack : List ℚ) (energy attack : ℚ)
    (he : goIndex ultEnergy c.info.UltLevelIndex = some energy)
    (ha : goIndex ultAttack c.info.UltLevelIndex = some attack)
    (L : List key.TargetID) (s : State)
    (hreg : s.registry.find UltBuff = some UltBuffConfig) (hinv : s.OneInstancePerKey) :
    ∃ s', char.UltLoop facade c reason ultEnergy ultAttack L s = some s'
      ∧ s'.registry = s.registry ∧ s'.characters = s.characters
      ∧ s'.OneInstancePerKey
      ∧ ∀ t, ((t ∈ L ∧ t ≠ c.id) ∨ HasUltBuff (s.modifiers t) c.id attack) →
          HasUltBuff (s'.modifiers t) c.id attack := by
  induction L generalizing s with
  | nil =>
    refine ⟨s, rfl, rfl, rfl, hinv, ?_⟩
    intro t ht
    rcases ht with ht | ht
    · simp at ht
    · exact ht
  | cons u rest ih =>
    by_cases h : c.id = u
    · obtain ⟨s', hs', hreg', hch', hinv', hhas⟩ := ih s hreg hinv
      refine ⟨s', ?_, hreg', hch', hinv', ?_⟩
      · simp only [char.UltLoop, h, if_true]
        exact hs'
      · intro t ht
        apply hhas
        rcases ht with ⟨hmem, hne⟩ | ht
        · rcases List.mem_cons.1 hmem with rfl | hmem'
          · exact absurd h.symm hne
          · exact Or.inl ⟨hmem', hne⟩
        · exact Or.inr ht
    · let m : info.Modifier ℚ :=
        { Name := UltBuff, Source := c.id, Duration := 0, TickImmediately := false,
          Stats := [(prop.Property.ATKPercent, attack)] }
      let s1 : State := s.ModifyEnergyFixed
        { Key := reason, Target := u, Source := c.id, Amount := s.maxEnergy u * energy }
      let s2 : State := s1.AddModifier u m
      have hreg1 : s1.registry.find m.Name = some UltBuffConfig := hreg
      have hmods2 : s2.modifiers
          = Function.update s.modifiers u (modifier.Apply UltBuffConfig u m (s.modifiers u)) :=
        addModifier_modifiers s1 u m UltBuffConfig hreg1
      have hreg2 : s2.registry = s.registry := by
        show (State.AddModifier _ _ _).registry = _
        rw [addModifier_registry]
        rfl
      have hch2 : s2.characters = s.characters := by
        show (State.AddModifier _ _ _).characters = _
        rw [addModifier_characters]
        rfl
      have hinv2 : s2.OneInstancePerKey := by
        intro t
        rw [hmods2]
        by_cases htu : t = u
        · subst htu
          rw [Function.update_same]
          exact modifier.apply_names_nodup _ _ _ _ (hinv t)
        · rw [Function.update_noteq htu]
          exact hinv t
      have hhas2 : HasUltBuff (s2.modifiers u) c.id attack := by
        rw [hmods2, Function.update_same]
        exact modifier.apply_replace_filter UltBuffConfig rfl u m (s.modifiers u) (hinv u)
      obtain ⟨s', hs', hreg', hch', hinv', hhas⟩ := ih s2 (hreg2 ▸ hreg) hinv2
      refine ⟨s', ?_, hreg'.trans hreg2, hch'.trans hch2, hinv', ?_⟩
      · simp only [char.UltLoop, h, if_false, he, ha]
        exact hs'
      · intro t ht
        apply hhas
        by_cases htu : t = u
        · subst htu
          exact Or.inr hhas2
        · rcases ht with ⟨hmem, hne⟩ | ht
          · rcases List.mem_cons.1 hmem with rfl | hmem'
            · exact absurd rfl htu
            · exact Or.inl ⟨hmem', hne⟩
          · right
            rw [hmods2, Function.update_noteq htu]
            exact ht

/-- C5: over the store of the spec, (i) applying two modifiers of the same key under a
Replace-policy configuration to a store with at most one instance per key leaves exactly
one instance of that key, whose deltas and source are those of the second application
and whose remaining duration is the second application's start duration, i.e. the
configured default when it sets none; (ii) on a state whose registry holds the
configuration registered by `init` under `UltBuff` and whose stores have at most one
instance per key, casting `char.Ult` twice (the second caster and level index being
arbitrary) succeeds whenever the table look-ups succeed and leaves on every listed
character other than the second caster exactly one `huohuo-ult` instance, with the
single delta `ATKPercent -> ultAttack[second index]`, remaining duration 2 and source
the second caster. -/
theorem C5_replace_keeps_latest_application {ε ε' ψ ψ' : Type} (s : State)
    (c1 : char ε) (c2 : char ε') (ultEnergy ultAttack : List ℚ)
    (energy1 attack1 energy2 attack2 : ℚ) (target1 target2 : key.TargetID)
    (state1 : ψ) (state2 : ψ')
    (hreg : s.registry.find UltBuff = some UltBuffConfig) (hinv : s.OneInstancePerKey)
    (he1 : goIndex ultEnergy c1.info.UltLevelIndex = some energy1)
    (ha1 : goIndex ultAttack c1.info.UltLevelIndex = some attack1)
    (he2 : goIndex ultEnergy c2.info.UltLevelIndex = some energy2)
    (ha2 : goIndex ultAttack c2.info.UltLevelIndex = some attack2) :
    (∀ (config : modifier.Config) (owner : key.TargetID) (m1 m2 : info.Modifier ℚ)
        (store : List modifier.Instance),
        config.Stacking = modifier.StackingBehavior.Replace → m1.Name = m2.Name →
        (store.map (fun i => i.name)).Nodup →
        ∃ inst,
          (modifier.Apply config owner m2 (modifier.Apply config owner m1 store)).filter
              (fun i => decide (i.name = m2.Name)) = [inst]
          ∧ inst.stats = m2.Stats ∧ inst.source = m2.Source
          ∧ inst.duration = modifier.startDuration config m2
          ∧ (m2.Duration = 0 → inst.duration = config.Duration))
    ∧ ∃ s1 s2, char.Ult facade ultEnergy ultAttack c1 target1 state1 s = some s1
        ∧ char.Ult facade ultEnergy ultAttack c2 target2 state2 s1 = some s2
        ∧ ∀ t ∈ s.characters, t ≠ c2.id →
            ∃ inst, (s2.modifiers t).filter (fun i => decide (i.name = UltBuff)) = [inst]
              ∧ inst.stats = [(prop.Property.ATKPercent, attack2)]
              ∧ inst.duration = 2 ∧ inst.source = c2.id := by
  constructor
  · intro config owner m1 m2 store hR _ hnd
    obtain ⟨inst, hfilter, hsrc, hdur, hstats⟩ :=
      modifier.apply_replace_filter config hR owner m2 _
        (modifier.apply_names_nodup config owner m1 store hnd)
    refine ⟨inst, hfilter, hstats, hsrc, hdur, ?_⟩
    intro h0
    rw [hdur]
    simp [modifier.startDuration, h0]
  · obtain ⟨s1, hs1, hreg1, hch1, hinv1, _⟩ :=
      ultLoop_facade_modifiers c1 Ult ultEnergy ultAttack energy1 attack1 he1 ha1
        s.characters s hreg hinv
    obtain ⟨s2, hs2, _, _, _, hhas2⟩ :=
      ultLoop_facade_modifiers c2 Ult ultEnergy ultAttack energy2 attack2 he2 ha2
        s1.characters s1 (hreg1 ▸ hreg) hinv1
    refine ⟨s1, s2, hs1, hs2, ?_⟩
    intro t ht hne
    obtain ⟨inst, hfilter, hsrc, hdur, hstats⟩ := hhas2 t (Or.inl ⟨hch1 ▸ ht, hne⟩)
    exact ⟨inst, hfilter, hstats, hdur, hsrc⟩

/-- C5, at a concrete input: on the sample state caster 2 casts at level index 0, then
caster 3 casts at level index 1. -/
theorem C5_replace_keeps_latest_application_witness :
    (∀ (config : modifier.Config) (owner : key.TargetID) (m1 m2 : info.Modifier ℚ)
        (store : List modifier.Instance),
        config.Stacking = modifier.StackingBehavior.Replace → m1.Name = m2.Name →
        (store.map (fun i => i.name)).Nodup →
        ∃ inst,
          (modifier.Apply config owner m2 (modifier.Apply config owner m1 store)).filter
              (fun i => decide (i.name = m2.Name)) = [inst]
          ∧ inst.stats = m2.Stats ∧ inst.source = m2.Source
          ∧ inst.duration = modifier.startDuration config m2
          ∧ (m2.Duration = 0 → inst.duration = config.Duration))
    ∧ ∃ s1 s2, char.Ult facade [1 / 5, 21 / 100] [3 / 10, 8 / 25]
          ({ engine := (), id := 2, info := { UltLevelIndex := 0 }, DispelCount := 0,
             TalentRound := 0 } : char Unit) 7 () State.sample = some s1
        ∧ char.Ult facade [1 / 5, 21 / 100] [3 / 10, 8 / 25]
          ({ engine := (), id := 3, info := { UltLevelIndex := 1 }, DispelCount := 0,
             TalentRound := 0 } : char Unit) 7 () s1 = some s2
        ∧ ∀ t ∈ State.sample.characters, t ≠ (3 : key.TargetID) →
            ∃ inst, (s2.modifiers t).filter (fun i => decide (i.name = UltBuff)) = [inst]
              ∧ inst.stats = [(prop.Property.ATKPercent, 8 / 25)]
              ∧ inst.duration = 2 ∧ inst.source = (3 : key.TargetID) :=
  C5_replace_keeps_latest_application State.sample
    { engine := (), id := 2, info := { UltLevelIndex := 0 }, DispelCount := 0,
      TalentRound := 0 }
    { engine := (), id := 3, info := { UltLevelIndex := 1 }, DispelCount := 0,
      TalentRound := 0 }
    [1 / 5, 21 / 100] [3 / 10, 8 / 25] (1 / 5) (3 / 10) (21 / 100) (8 / 25) 7 7 () ()
    (by decide) (fun _ => List.nodup_nil) rfl rfl rfl rfl

/-- C4: `init` registers `UltBuff = "huohuo-ult"` exactly once: on any registry that does
not hold the key it succeeds, afterwards the key is found with stacking policy Replace,
default duration 2 and status classification buff, exactly one entry carries the key,
and the other entries are the earlier ones (a second run of `init` is the fatal
duplicate registration); and on every state of the facade that carries this registry
(with at most one instance per key), whenever both table look-ups succeed, `char.Ult`
returns and leaves on every listed character other than the caster exactly one
`huohuo-ult` instance, with remaining duration 2, the single delta
`ATKPercent -> ultAttack[UltLevelIndex()]` and the caster as source.  On the recording
engine the `AddModifier` calls of `char.Ult` are, in order, one call for each element of
`Characters()` other than the caster, each handing over the record with
`Name = UltBuff`, `Source =` the caster id, `TickImmediately = false`, no explicit
duration (the zero value) and `Stats` holding the single entry
`ATKPercent -> ultAttack[UltLevelIndex()]`, so that the duration it starts with under
the registered configuration is 2. -/
theorem C4_ult_buff_registration_and_modifier {ε ψ : Type} (reg : modifier.Registry)
    (chars : List key.TargetID) (maxE : key.TargetID → ℚ) (c : char ε)
    (ultEnergy ultAttack : List ℚ) (energy attack : ℚ) (target : key.TargetID) (state : ψ)
    (hreg : reg.find UltBuff = none)
    (he : goIndex ultEnergy c.info.UltLevelIndex = some energy)
    (ha : goIndex ultAttack c.info.UltLevelIndex = some attack) :
    UltBuff = "huohuo-ult"
    ∧ (∃ reg', init_ult reg = some reg'
        ∧ reg'.find UltBuff = some
            { Stacking := modifier.StackingBehavior.Replace, Duration := 2,
              StatusType := model.StatusType.StatusType_STATUS_BUFF, MaxCount := 0,
              MaxDuration := 0 }
        ∧ (reg'.filter (fun entry => decide (entry.1 = UltBuff))).length = 1
        ∧ reg'.filter (fun entry => decide (entry.1 ≠ UltBuff)) = reg
        ∧ init_ult reg' = none
        ∧ ∀ s : State, s.registry = reg' → s.OneInstancePerKey →
            ∃ s', char.Ult facade ultEnergy ultAttack c target state s = some s'
              ∧ ∀ t ∈ s.characters, t ≠ c.id →
                  ∃ inst,
                    (s'.modifiers t).filter (fun i => decide (i.name = UltBuff)) = [inst]
                    ∧ inst.duration = 2
                    ∧ inst.stats = [(prop.Property.ATKPercent, attack)]
                    ∧ inst.source = c.id)
    ∧ ∃ tr, char.Ult (recorder chars maxE) ultEnergy ultAttack c target state [] = some tr
        ∧ addModifierCalls tr
            = (chars.filter (fun t => decide (t ≠ c.id))).map (fun t =>
                (t, ({ Name := UltBuff, Source := c.id, Duration := 0,
                       TickImmediately := false,
                       Stats := [(prop.Property.ATKPercent, attack)] } :
                      info.Modifier ℚ)))
        ∧ (addModifierCalls tr).length
            = (chars.filter (fun t => decide (t ≠ c.id))).length
        ∧ ∀ p ∈ addModifierCalls tr,
            p.2 = { Name := UltBuff, Source := c.id, Duration := 0, TickImmediately := false,
                    Stats := [(prop.Property.ATKPercent, attack)] }
            ∧ modifier.startDuration UltBuffConfig p.2 = 2 := by
  have hnone : ∀ x ∈ reg, ¬ x.1 = UltBuff := by
    unfold modifier.Registry.find at hreg
    simp only [Option.map_eq_none', List.find?_eq_none] at hreg
    intro x hx
    simpa using hreg x hx
  refine ⟨rfl, ⟨reg ++ [(UltBuff, UltBuffConfig)], register_fresh reg _ _ hreg,
    find_after_register reg _ _ hreg, ?_, ?_, ?_, ?_⟩, ?_⟩
  · rw [List.filter_append]
    have : reg.filter (fun entry => decide (entry.1 = UltBuff)) = [] := by
      rw [List.filter_eq_nil_iff]
      intro x hx
      simpa using hnone x hx
    rw [this]
    simp
  · rw [List.filter_append]
    have : reg.filter (fun entry => decide (entry.1 ≠ UltBuff)) = reg := by
      rw [List.filter_eq_self]
      intro x hx
      simpa using hnone x hx
    rw [this]
    simp
  · unfold init_ult modifier.Register
    simp
  · intro s hs hinv
    have hfind : s.registry.find UltBuff = some UltBuffConfig := by
      rw [hs]
      exact find_after_register reg _ _ hreg
    obtain ⟨s', hs', _, _, _, hhas⟩ :=
      ultLoop_facade_modifiers c Ult ultEnergy ultAttack energy attack he ha
        s.characters s hfind hinv
    refine ⟨s', hs', ?_⟩
    intro t ht hne
    obtain ⟨inst, hfilter, hsrc, hdur, hstats⟩ := hhas t (Or.inl ⟨ht, hne⟩)
    exact ⟨inst, hfilter, hdur, hstats, hsrc⟩
  · refine ⟨_, ultWith_recorder chars maxE c Ult ultEnergy ultAttack energy attack he ha
      target state [], ?_, ?_, ?_⟩
    · rw [List.nil_append, addModifierCalls_flatMap]
      rfl
    · rw [List.nil_append, addModifierCalls_flatMap, List.length_map]
      rfl
    · intro p hp
      rw [List.nil_append, addModifierCalls_flatMap, List.mem_map] at hp
      obtain ⟨t, _, rfl⟩ := hp
      exact ⟨rfl, rfl⟩

/-- C4, at a concrete input: the empty registry, caster 2 among the characters 1, 2, 3:
the two `AddModifier` calls go to 1 and 3. -/
theorem C4_ult_buff_registration_and_modifier_witness :
    UltBuff = "huohuo-ult"
    ∧ (∃ reg', init_ult [] = some reg'
        ∧ reg'.find UltBuff = some
            { Stacking := modifier.StackingBehavior.Replace, Duration := 2,
              StatusType := model.StatusType.StatusType_STATUS_BUFF, MaxCount := 0,
              MaxDuration := 0 }
        ∧ (reg'.filter (fun entry => decide (entry.1 = UltBuff))).length = 1
        ∧ reg'.filter (fun entry => decide (entry.1 ≠ UltBuff)) = []
        ∧ init_ult reg' = none
        ∧ ∀ s : State, s.registry = reg' → s.OneInstancePerKey →
            ∃ s', char.Ult facade [1 / 5] [3 / 10]
                ({ engine := (), id := 2, info := { UltLevelIndex := 0 }, DispelCount := 0,
                   TalentRound := 0 } : char Unit) 7 () s = some s'
              ∧ ∀ t ∈ s.characters, t ≠ (2 : key.TargetID) →
                  ∃ inst,
                    (s'.modifiers t).filter (fun i => decide (i.name = UltBuff)) = [inst]
                    ∧ inst.duration = 2
                    ∧ inst.stats = [(prop.Property.ATKPercent, 3 / 10)]
                    ∧ inst.source = (2 : key.TargetID))
    ∧ ∃ tr, char.Ult (recorder [1, 2, 3] (fun _ => (140 : ℚ))) [1 / 5] [3 / 10]
          ({ engine := (), id := 2, info := { UltLevelIndex := 0 }, DispelCount := 0,
             TalentRound := 0 } : char Unit) 7 () [] = some tr
        ∧ addModifierCalls tr
            = ([1, 2, 3].filter (fun t => decide (t ≠ (2 : key.TargetID)))).map (fun t =>
                (t, ({ Name := UltBuff, Source := 2, Duration := 0,
                       TickImmediately := false,
                       Stats := [(prop.Property.ATKPercent, 3 / 10)] } :
                      info.Modifier ℚ)))
        ∧ (addModifierCalls tr).length
            = ([1, 2, 3].filter (fun t => decide (t ≠ (2 : key.TargetID)))).length
        ∧ ∀ p ∈ addModifierCalls tr,
            p.2 = { Name := UltBuff, Source := 2, Duration := 0, TickImmediately := false,
                    Stats := [(prop.Property.ATKPercent, 3 / 10)] }
            ∧ modifier.startDuration UltBuffConfig p.2 = 2 :=
  C4_ult_buff_registration_and_modifier [] [1, 2, 3] (fun _ => (140 : ℚ))
    { engine := (), id := 2, info := { UltLevelIndex := 0 }, DispelCount := 0,
      TalentRound := 0 } [1 / 5] [3 / 10] (1 / 5) (3 / 10) 7 () rfl rfl rfl

/-- C7: over the event bus of the spec, `NewInstance` returns the instance holding the
given engine, id and info with `DispelCount = 0` and `TalentRound = 0`; the event
system it leaves differs from the one it found only in the `ActionStart` list, which
is the earlier list followed by exactly one new callback, the instance's
`TalentActionStartListener`; hence constructing X, Y, Z in that order leaves the
`ActionStart` list (the dispatch order) equal to the earlier list followed by the
listeners of X, Y, Z in that exact order, and every other list as it was. -/
theorem C7_newInstance_subscribes_in_order {ε : Type} (events : event.System (Callback ε))
    (engine engineX engineY engineZ : ε) (id idX idY idZ : key.TargetID)
    (charInfo infoX infoY infoZ : info.Character) :
    (NewInstance engine id charInfo events).1
        = { engine := engine, id := id, info := charInfo, DispelCount := 0, TalentRound := 0 }
    ∧ (∀ k, (NewInstance engine id charInfo events).2 k
        = if k = event.Kind.ActionStart then
            events k
              ++ [Callback.TalentActionStartListener (NewInstance engine id charInfo events).1]
          else events k)
    ∧ ((NewInstance engine id charInfo events).2 event.Kind.ActionStart).length
        = (events event.Kind.ActionStart).length + 1
    ∧ (∀ k,
        event.dispatchOrder
          (NewInstance engineZ idZ infoZ
            (NewInstance engineY idY infoY (NewInstance engineX idX infoX events).2).2).2 k
        = if k = event.Kind.ActionStart then
            events k
              ++ [ Callback.TalentActionStartListener
                     { engine := engineX, id := idX, info := infoX, DispelCount := 0,
                       TalentRound := 0 },
                   Callback.TalentActionStartListener
                     { engine := engineY, id := idY, info := infoY, DispelCount := 0,
                       TalentRound := 0 },
                   Callback.TalentActionStartListener
                     { engine := engineZ, id := idZ, info := infoZ, DispelCount := 0,
                       TalentRound := 0 } ]
          else events k) := by
  refine ⟨rfl, fun k => rfl, ?_, ?_⟩
  · simp [NewInstance, event.Subscribe]
  · intro k
    by_cases h : k = event.Kind.ActionStart
    · simp [NewInstance, event.Subscribe, event.dispatchOrder, h]
    · simp [NewInstance, event.Subscribe, event.dispatchOrder, h]

end huohuo

/-! ### The promotion table of the generator -/

namespace weapstat

theorem lookup_isSome_of_mem_keys (promotions : PromotionConfig) (k : String)
    (h : k ∈ promotions.map Prod.fst) : ∃ v, promotions.lookup k = some v := by
  induction promotions with
  | nil => simp at h
  | cons e rest ih =>
    obtain ⟨k', v'⟩ := e
    by_cases hk : k = k'
    · subst hk
      exact ⟨v', by simp [List.lookup]⟩
    · have hmem : k ∈ rest.map Prod.fst := by
        rcases List.mem_cons.1 h with h' | h'
        · exact absurd h' hk
        · exact h'
      obtain ⟨v, hv⟩ := ih hmem
      refine ⟨v, ?_⟩
      have hb : (k == k') = false := by simpa using hk
      simp [List.lookup, hb, hv]

/-- The invariant of the loop of `ProcessLightCone`, started at counter `i` with
`len(promotions) - i` iterations left. -/
theorem promotionLoop_spec (promotions : PromotionConfig) (fuel i : Nat)
    (data : List PromotionData) (hfuel : i + fuel = promotions.length)
    (hlen : data.length = promotions.length) :
    (promotionLoop promotions fuel i data).length = promotions.length
    ∧ (∀ j, j < i → (promotionLoop promotions fuel i data)[j]? = data[j]?)
    ∧ (∀ j, i ≤ j → j < promotions.length →
        (∀ m, i ≤ m → m ≤ j → promotions.lookup (strconv.Itoa m) ≠ none) →
        ∃ v, promotions.lookup (strconv.Itoa j) = some v
          ∧ (promotionLoop promotions fuel i data)[j]? = some (PromotionData.ofEntry v))
    ∧ (∀ k, i ≤ k → promotions.lookup (strconv.Itoa k) = none →
        (∀ m, i ≤ m → m < k → promotions.lookup (strconv.Itoa m) ≠ none) →
        ∀ j, k ≤ j → (promotionLoop promotions fuel i data)[j]? = data[j]?) := by
  induction fuel generalizing i data with
  | zero =>
    refine ⟨hlen, fun _ _ => rfl, ?_, fun _ _ _ _ _ _ => rfl⟩
    intro j hij hj _
    omega
  | succ fuel ih =>
    have hi : i < promotions.length := by omega
    cases hlook : promotions.lookup (strconv.Itoa i) with
    | none =>
      have hr : promotionLoop promotions (fuel + 1) i data = data := by
        simp [promotionLoop, hi, hlook]
      rw [hr]
      refine ⟨hlen, fun _ _ => rfl, ?_, fun _ _ _ _ _ _ => rfl⟩
      intro j hij _ hall
      exact absurd hlook (hall i (le_refl _) hij)
    | some val =>
      have hr : promotionLoop promotions (fuel + 1) i data
          = promotionLoop promotions fuel (i + 1) (data.set i (PromotionData.ofEntry val)) := by
        simp [promotionLoop, hi, hlook]
      rw [hr]
      obtain ⟨h1, h2, h3, h4⟩ := ih (i + 1) (data.set i (PromotionData.ofEntry val))
        (by omega) (by rw [List.length_set]; exact hlen)
      refine ⟨h1, ?_, ?_, ?_⟩
      · intro j hj
        rw [h2 j (by omega), List.getElem?_set_ne (by omega)]
      · intro j hij hj hall
        by_cases hji : j = i
        · subst hji
          refine ⟨val, hlook, ?_⟩
          rw [h2 j (by omega), List.getElem?_set_self (by omega)]
        · exact h3 j (by omega) hj (fun m hm hmj => hall m (by omega) hmj)
      · intro k hik hk hall j hkj
        have hki : k ≠ i := by
          intro e
          rw [e, hlook] at hk
          exact absurd hk (by simp)
        rw [h4 k (by omega) hk (fun m hm hmk => hall m (by omega) hmk) j hkj,
          List.getElem?_set_ne (by omega)]

/-- C9: the `PromotionData` slice built by `ProcessLightCone` (and stored in the data it
returns) has length `len(promotions)`; if the keys of `promotions` are exactly
`"0"`, ..., `"n-1"` then for every `i < n` entry `i` is built from the
`MaxLevel/ATKBase/ATKAdd/DEFBase/DEFAdd/HPBase/HPAdd` values of `promotions["i"]`; and
if `k < len(promotions)` is the least index whose decimal key is missing, the entries
below `k` are filled in that way while every entry from `k` to `len(promotions) - 1`
is the zero value, whatever larger keys are present. -/
theorem C9_promotion_data_filled_up_to_first_gap (promotions : PromotionConfig) :
    (promotionData promotions).length = promotions.length
    ∧ (∀ name cone d, ProcessLightCone name cone promotions = some d →
        d.PromotionData = promotionData promotions)
    ∧ (∀ n, (promotions.map Prod.fst).Perm ((List.range n).map strconv.Itoa) →
        promotions.length = n
        ∧ ∀ i, i < n → ∃ val, promotions.lookup (strconv.Itoa i) = some val
            ∧ (promotionData promotions)[i]?
                = some { MaxLevel := val.MaxLevel
                         ATKBase := val.BaseAttack.Value
                         ATKAdd := val.BaseAttackAdd.Value
                         DEFBase := val.BaseDefence.Value
                         DEFAdd := val.BaseDefenceAdd.Value
                         HPBase := val.BaseHP.Value
                         HPAdd := val.BaseHPAdd.Value })
    ∧ (∀ k, k < promotions.length → promotions.lookup (strconv.Itoa k) = none →
        (∀ m, m < k → promotions.lookup (strconv.Itoa m) ≠ none) →
        (∀ i, i < k → ∃ val, promotions.lookup (strconv.Itoa i) = some val
            ∧ (promotionData promotions)[i]? = some (PromotionData.ofEntry val))
        ∧ ∀ j, k ≤ j → j < promotions.length →
            (promotionData promotions)[j]?
              = some { MaxLevel := 0, ATKBase := 0, ATKAdd := 0, DEFBase := 0, DEFAdd := 0,
                       HPBase := 0, HPAdd := 0 }) := by
  obtain ⟨h1, _, h3, h4⟩ := promotionLoop_spec promotions promotions.length 0
    (List.replicate promotions.length PromotionData.zero) (by omega) (by simp)
  refine ⟨h1, ?_, ?_, ?_⟩
  · intro name cone d hd
    unfold ProcessLightCone at hd
    simp only at hd
    split at hd
    · exact absurd hd (by simp)
    · simp only [Option.some.injEq] at hd
      rw [← hd]
  · intro n hperm
    have hlen : promotions.length = n := by
      have := hperm.length_eq
      simpa using this
    refine ⟨hlen, ?_⟩
    intro i hi
    have hall : ∀ m, m < n → promotions.lookup (strconv.Itoa m) ≠ none := by
      intro m hm
      have hmem : strconv.Itoa m ∈ promotions.map Prod.fst :=
        hperm.symm.subset (List.mem_map_of_mem _ (List.mem_range.2 hm))
      obtain ⟨v, hv⟩ := lookup_isSome_of_mem_keys promotions _ hmem
      rw [hv]
      simp
    exact h3 i (Nat.zero_le _) (hlen ▸ hi) (fun m _ hmi => hall m (by omega))
  · intro k hk hnone hbelow
    refine ⟨?_, ?_⟩
    · intro i hi
      exact h3 i (Nat.zero_le _) (by omega) (fun m _ hmi => hbelow m (by omega))
    · intro j hkj hj
      have := h4 k (Nat.zero_le _) hnone (fun m _ hmk => hbelow m hmk) j hkj
      unfold promotionData
      rw [this, List.getElem?_replicate_of_lt hj]
      rfl

/-- C9, at a concrete input: the sample table has the keys `"0"`, `"1"`, `"3"`; entries
0 and 1 are filled, entry 2 is the zero value although key `"3"` is present. -/
theorem C9_promotion_data_filled_up_to_first_gap_witness :
    (promotionData PromotionConfig.sample).length = PromotionConfig.sample.length
    ∧ (∀ i, i < 2 → ∃ val, PromotionConfig.sample.lookup (strconv.Itoa i) = some val
        ∧ (promotionData PromotionConfig.sample)[i]? = some (PromotionData.ofEntry val))
    ∧ (∀ j, 2 ≤ j → j < PromotionConfig.sample.length →
        (promotionData PromotionConfig.sample)[j]?
          = some { MaxLevel := 0, ATKBase := 0, ATKAdd := 0, DEFBase := 0, DEFAdd := 0,
                   HPBase := 0, HPAdd := 0 }) :=
  ⟨(C9_promotion_data_filled_up_to_first_gap PromotionConfig.sample).1,
    (C9_promotion_data_filled_up_to_first_gap PromotionConfig.sample).2.2.2 2
      (by decide) (by decide) (by decide)⟩

/-! ### The identifier and the rarity of the generator -/

theorem keyRegexReplaceAll_nil (inRun : Bool) (l : List Char) :
    keyRegexReplaceAll [] inRun l = l.filter isWordChar := by
  induction l generalizing inRun with
  | nil => rfl
  | cons ch rest ih =>
    by_cases h : isWordChar ch = true
    · simp [keyRegexReplaceAll, h, ih]
    · cases inRun <;> simp [keyRegexReplaceAll, h, ih]

theorem afterLiteral_eq_some (lit s rest : List Char) :
    afterLiteral lit s = some rest ↔ s = lit ++ rest := by
  induction lit generalizing s with
  | nil => simp [afterLiteral, eq_comm]
  | cons l ls ih =>
    cases s with
    | nil => simp [afterLiteral]
    | cons ch tail =>
      by_cases h : l = ch
      · subst h
        simp [afterLiteral, ih]
      · have h' : ¬ ch = l := fun e => h e.symm
        simp [afterLiteral, h, h']

theorem rarityMatchHere_eq_some (s digits : List Char) :
    rarityMatchHere s = some digits
      ↔ ∃ rest, s = rarityLiteral ++ rest ∧ digits = rest.takeWhile isDigitChar
          ∧ digits ≠ [] := by
  unfold rarityMatchHere
  cases h : afterLiteral rarityLiteral s with
  | none =>
    constructor
    · intro e
      exact absurd e (by simp)
    · rintro ⟨rest, hrest, _, _⟩
      rw [← afterLiteral_eq_some, h] at hrest
      exact absurd hrest (by simp)
  | some rest =>
    rw [afterLiteral_eq_some] at h
    subst h
    by_cases hd : rest.takeWhile isDigitChar = []
    · simp only [hd, if_true]
      constructor
      · intro e
        exact absurd e (by simp)
      · rintro ⟨rest', hrest', hdig, hne⟩
        have : rest = rest' := List.append_cancel_left hrest'
        subst this
        exact absurd (hdig.trans hd) hne
    · simp only [hd, if_false, Option.some.injEq]
      constructor
      · intro e
        exact ⟨rest, rfl, e.symm, e ▸ hd⟩
      · rintro ⟨rest', hrest', hdig, _⟩
        have : rest = rest' := List.append_cancel_left hrest'
        subst this
        exact hdig.symm

theorem rarityMatchHere_eq_none (s : List Char) :
    rarityMatchHere s = none
      ↔ ∀ rest, s = rarityLiteral ++ rest → rest.takeWhile isDigitChar = [] := by
  constructor
  · intro h rest hrest
    by_contra hne
    have : rarityMatchHere s = some (rest.takeWhile isDigitChar) :=
      (rarityMatchHere_eq_some s _).2 ⟨rest, hrest, rfl, hne⟩
    rw [h] at this
    exact absurd this (by simp)
  · intro h
    cases hm : rarityMatchHere s with
    | none => rfl
    | some digits =>
      obtain ⟨rest, hrest, hdig, hne⟩ := (rarityMatchHere_eq_some s digits).1 hm
      exact absurd (hdig ▸ h rest hrest) hne

theorem rarityLiteral_ne_nil : rarityLiteral ≠ [] := by
  decide

theorem rarityFindSubmatch_eq_nil (s : List Char) :
    rarityFindSubmatch s = []
      ↔ ∀ pre suf, s = pre ++ rarityLiteral ++ suf → suf.takeWhile isDigitChar = [] := by
  induction s with
  | nil =>
    simp only [rarityFindSubmatch, true_iff]
    intro pre suf h
    have h' := congrArg List.length h
    have hl : 0 < rarityLiteral.length := List.length_pos.2 rarityLiteral_ne_nil
    simp only [List.length_nil, List.length_append] at h'
    omega
  | cons ch rest ih =>
    cases hm : rarityMatchHere (ch :: rest) with
    | some digits =>
      obtain ⟨rest', hrest', hdig, hne⟩ := (rarityMatchHere_eq_some _ digits).1 hm
      simp only [rarityFindSubmatch, hm]
      constructor
      · intro e
        exact absurd e (by simp)
      · intro hall
        exact absurd (hdig ▸ hall [] rest' (by simpa using hrest')) hne
    | none =>
      rw [rarityMatchHere_eq_none] at hm
      simp only [rarityFindSubmatch]
      rw [(rarityMatchHere_eq_none _).2 hm, ih]
      constructor
      · intro h pre suf hs
        cases pre with
        | nil => exact hm suf (by simpa using hs)
        | cons a pre' =>
          simp only [List.cons_append, List.cons.injEq] at hs
          exact h pre' suf hs.2
      · intro h pre suf hs
        exact h (ch :: pre) suf (by simp [hs])

theorem rarityFindSubmatch_shape (s : List Char) :
    rarityFindSubmatch s = [] ∨ ∃ whole group, rarityFindSubmatch s = [whole, group] := by
  induction s with
  | nil => exact Or.inl rfl
  | cons ch rest ih =>
    cases hm : rarityMatchHere (ch :: rest) with
    | some digits =>
      exact Or.inr ⟨String.mk (rarityLiteral ++ digits), String.mk digits,
        by simp only [rarityFindSubmatch, hm]⟩
    | none =>
      have : rarityFindSubmatch (ch :: rest) = rarityFindSubmatch rest := by
        simp only [rarityFindSubmatch, hm]
      rw [this]
      exact ih

theorem rarityFindSubmatch_first (pre suf : List Char)
    (hdig : suf.takeWhile isDigitChar ≠ [])
    (hfirst : ∀ pre' suf', pre ++ rarityLiteral ++ suf = pre' ++ rarityLiteral ++ suf' →
      pre'.length < pre.length → suf'.takeWhile isDigitChar = []) :
    rarityFindSubmatch (pre ++ rarityLiteral ++ suf)
      = [String.mk (rarityLiteral ++ suf.takeWhile isDigitChar),
         String.mk (suf.takeWhile isDigitChar)] := by
  induction pre with
  | nil =>
    have hm : rarityMatchHere ([] ++ rarityLiteral ++ suf)
        = some (suf.takeWhile isDigitChar) :=
      (rarityMatchHere_eq_some _ _).2 ⟨suf, by simp, rfl, hdig⟩
    cases hs : [] ++ rarityLiteral ++ suf with
    | nil =>
      have h' := congrArg List.length hs
      have hl : 0 < rarityLiteral.length := List.length_pos.2 rarityLiteral_ne_nil
      simp only [List.length_nil, List.length_append] at h'
      omega
    | cons ch rest =>
      rw [hs] at hm
      simp only [rarityFindSubmatch, hm]
  | cons a pre' ih =>
    have hm : rarityMatchHere (a :: pre' ++ rarityLiteral ++ suf) = none := by
      rw [rarityMatchHere_eq_none]
      intro rest hrest
      exact hfirst [] rest (by simpa using hrest) (by simp)
    have hstep : rarityFindSubmatch (a :: pre' ++ rarityLiteral ++ suf)
        = rarityFindSubmatch (pre' ++ rarityLiteral ++ suf) := by
      simp only [List.cons_append] at hm ⊢
      simp only [rarityFindSubmatch, hm]
    rw [hstep]
    apply ih
    intro pre'' suf'' hs hlt
    exact hfirst (a :: pre'') suf'' (by simp [hs]) (by simpa using hlt)

/-- C10: in the data `ProcessLightCone` returns, `Key` is the cone name with every
character outside `[0-9A-Za-z_]` deleted (so it consists of word characters only, is
unchanged by a second sanitisation, and is empty exactly when the name has no word
character) and `KeyLower` is the lower-casing of `Key`; the function returns exactly
when `cone.Rarity` contains `CombatPowerLightconeRarity` immediately followed by at
least one digit, and then `Rarity` is the maximal run of digits after the first such
occurrence; for every other `Rarity` string the match result is `nil`, indexing it at
`[1]` is out of range, and the function panics instead of returning. -/
theorem C10_key_sanitised_and_rarity_extracted (name : String) (cone : EquipmentConfig)
    (promotions : PromotionConfig) :
    (keyRegex.ReplaceAllString name "").data = name.data.filter isWordChar
    ∧ (∀ ch ∈ (keyRegex.ReplaceAllString name "").data,
        ('0' ≤ ch ∧ ch ≤ '9') ∨ ('A' ≤ ch ∧ ch ≤ 'Z') ∨ ('a' ≤ ch ∧ ch ≤ 'z') ∨ ch = '_')
    ∧ keyRegex.ReplaceAllString (keyRegex.ReplaceAllString name "") ""
        = keyRegex.ReplaceAllString name ""
    ∧ (keyRegex.ReplaceAllString name "" = "" ↔ ∀ ch ∈ name.data, isWordChar ch = false)
    ∧ (∀ d, ProcessLightCone name cone promotions = some d →
        d.Key = keyRegex.ReplaceAllString name ""
        ∧ d.KeyLower = String.mk (d.Key.data.map Char.toLower))
    ∧ ((∃ d, ProcessLightCone name cone promotions = some d)
        ↔ ∃ pre suf, cone.Rarity.data = pre ++ "CombatPowerLightconeRarity".data ++ suf
            ∧ suf.takeWhile isDigitChar ≠ [])
    ∧ (∀ pre suf, cone.Rarity.data = pre ++ "CombatPowerLightconeRarity".data ++ suf →
        suf.takeWhile isDigitChar ≠ [] →
        (∀ pre' suf', cone.Rarity.data = pre' ++ "CombatPowerLightconeRarity".data ++ suf' →
          pre'.length < pre.length → suf'.takeWhile isDigitChar = []) →
        ∃ d, ProcessLightCone name cone promotions = some d
          ∧ d.Rarity.data = suf.takeWhile isDigitChar)
    ∧ ((¬ ∃ pre suf, cone.Rarity.data = pre ++ "CombatPowerLightconeRarity".data ++ suf
            ∧ suf.takeWhile isDigitChar ≠ []) →
        rarityRegex.FindStringSubmatch cone.Rarity = []
        ∧ goIndex (rarityRegex.FindStringSubmatch cone.Rarity) 1 = none
        ∧ ProcessLightCone name cone promotions = none) := by
  have hkey : (keyRegex.ReplaceAllString name "").data = name.data.filter isWordChar := by
    simp [keyRegex.ReplaceAllString, keyRegexReplaceAll_nil]
  have hnil : (¬ ∃ pre suf, cone.Rarity.data = pre ++ rarityLiteral ++ suf
      ∧ suf.takeWhile isDigitChar ≠ []) →
      rarityRegex.FindStringSubmatch cone.Rarity = [] := by
    intro h
    unfold rarityRegex.FindStringSubmatch
    rw [rarityFindSubmatch_eq_nil]
    intro pre suf hs
    by_contra hne
    exact h ⟨pre, suf, hs, hne⟩
  have hsome : ∀ pre suf, cone.Rarity.data = pre ++ rarityLiteral ++ suf →
      suf.takeWhile isDigitChar ≠ [] →
      (∀ pre' suf', cone.Rarity.data = pre' ++ rarityLiteral ++ suf' →
        pre'.length < pre.length → suf'.takeWhile isDigitChar = []) →
      ∃ d, ProcessLightCone name cone promotions = some d
        ∧ d.Rarity.data = suf.takeWhile isDigitChar := by
    intro pre suf hs hdig hfirst
    have hfind := rarityFindSubmatch_first pre suf hdig (fun pre' suf' h hlt =>
      hfirst pre' suf' (hs.trans h) hlt)
    rw [← hs] at hfind
    refine ⟨{ Key := keyRegex.ReplaceAllString name ""
              KeyLower := strings.ToLower (keyRegex.ReplaceAllString name "")
              Rarity := String.mk (suf.takeWhile isDigitChar)
              Path := cone.GetPath
              PromotionData := promotionData promotions }, ?_, rfl⟩
    unfold ProcessLightCone rarityRegex.FindStringSubmatch
    simp only [hfind, goIndex]
    rfl
  refine ⟨hkey, ?_, ?_, ?_, ?_, ?_, hsome, ?_⟩
  · intro ch hch
    rw [hkey, List.mem_filter] at hch
    have h := hch.2
    simp only [isWordChar, Bool.or_eq_true, Bool.and_eq_true, decide_eq_true_eq] at h
    tauto
  · have : (keyRegex.ReplaceAllString (keyRegex.ReplaceAllString name "") "").data
        = (keyRegex.ReplaceAllString name "").data := by
      simp [keyRegex.ReplaceAllString, keyRegexReplaceAll_nil]
    exact String.ext this
  · constructor
    · intro h ch hch
      have hd : (keyRegex.ReplaceAllString name "").data = [] := by rw [h]
      rw [hkey, List.filter_eq_nil_iff] at hd
      simpa using hd ch hch
    · intro h
      apply String.ext
      rw [hkey]
      show List.filter isWordChar name.data = []
      rw [List.filter_eq_nil_iff]
      intro ch hch
      simp [h ch hch]
  · intro d hd
    unfold ProcessLightCone at hd
    simp only at hd
    split at hd
    · exact absurd hd (by simp)
    · simp only [Option.some.injEq] at hd
      rw [← hd]
      exact ⟨rfl, rfl⟩
  · constructor
    · rintro ⟨d, hd⟩
      by_contra hno
      have hfind := hnil hno
      unfold ProcessLightCone at hd
      simp [hfind, goIndex] at hd
    · rintro ⟨pre, suf, hs, hdig⟩
      rcases rarityFindSubmatch_shape cone.Rarity.data with hfind | ⟨whole, group, hfind⟩
      · rw [rarityFindSubmatch_eq_nil] at hfind
        exact absurd (hfind pre suf hs) hdig
      · refine ⟨{ Key := keyRegex.ReplaceAllString name ""
                  KeyLower := strings.ToLower (keyRegex.ReplaceAllString name "")
                  Rarity := group
                  Path := cone.GetPath
                  PromotionData := promotionData promotions }, ?_⟩
        unfold ProcessLightCone rarityRegex.FindStringSubmatch
        simp only [hfind, goIndex]
        rfl
  · intro hno
    have hfind := hnil hno
    refine ⟨hfind, ?_, ?_⟩
    · rw [hfind]
      rfl
    · unfold ProcessLightCone
      simp [hfind, goIndex]

/-- C10, at a concrete input: the name `In the Night!` and the rarity string
`xCombatPowerLightconeRarity45y`, whose first occurrence of the literal starts at
position 1 and is followed by the digit run `45`. -/
theorem C10_key_sanitised_and_rarity_extracted_witness :
    (keyRegex.ReplaceAllString "In the Night!" "").data
        = "In the Night!".data.filter isWordChar
    ∧ ∃ d, ProcessLightCone "In the Night!"
          { Rarity := "xCombatPowerLightconeRarity45y", GetPath := model.Path.Path_HUNT }
          PromotionConfig.sample = some d
        ∧ d.Rarity.data = "45y".data.takeWhile isDigitChar :=
  ⟨(C10_key_sanitised_and_rarity_extracted "In the Night!"
      { Rarity := "xCombatPowerLightconeRarity45y", GetPath := model.Path.Path_HUNT }
      PromotionConfig.sample).1,
    (C10_key_sanitised_and_rarity_extracted "In the Night!"
      { Rarity := "xCombatPowerLightconeRarity45y", GetPath := model.Path.Path_HUNT }
      PromotionConfig.sample).2.2.2.2.2.2.1 "x".data "45y".data (by decide) (by decide)
      (by
        intro pre' suf' h hlt
        have hnil : pre' = [] := by
          cases pre' with
          | nil => rfl
          | cons a t => simp at hlt
        subst hnil
        simp at h)⟩

end weapstat
